import Mathlib

/-!
# Specific Affinity — verification of the entity-resolution core

Shallow embedding of the DuckDB/SQL entity-resolution pipeline from
`src/python` (modules `config.py`, `prime_table.py`, `inference.py`,
`cleanup.py`).  Tables are modelled as Lean lists of rows, SQL `VARCHAR`
values as `List Char` (so that comparisons compute), SQL `DOUBLE`
arithmetic as exact rationals `ℚ`, and the SQL `LN` function as an
explicit function parameter `ln : ℚ → ℚ` (a transcendental function has
no faithful computable model; every property proved below holds for an
arbitrary `ln`, and concrete evaluations instantiate it explicitly).

Naming follows the Python source: `create_blocking_keys`,
`calculate_weights`, `find_candidate_pairs`, `filter_by_threshold`,
`identify_connected_components`, `run_step_1` (Build),
`tokenize_new_records`, `find_candidates`, `rank_matches`,
`create_inferred_matches`, `create_inference_results`, `run_step_2`
(Infer), `create_unassigned_blocking_keys`, `find_unassigned_pairs`,
`identify_unassigned_components`, `generate_new_cluster_ids`,
`update_prime_table`, `run_step_3` (Reconcile).
-/

namespace SpecificAffinity

/-- Record identifiers are SQL `VARCHAR`; modelled as `List Char` so that
the SQL comparisons `<`, `LEAST`, `MIN` (lexicographic on code points)
are kernel-computable. -/
abbrev RecId := List Char

/-- A token is a normalized string (SQL `VARCHAR`). -/
abbrev Token := List Char

/-- Cluster identifiers share the `VARCHAR` column type of record ids
(Step 1 stores record ids there, Step 3 stores generated names). -/
abbrev ClusterId := List Char

/-! ## Normalizer (SQL text functions) -/

/-- SQL `LOWER` on one character, restricted to ASCII (non-ASCII letters
are irrelevant: the regular expression below replaces them by a space). -/
def lowerChar (c : Char) : Char :=
  if 'A' ≤ c ∧ c ≤ 'Z' then Char.ofNat (c.toNat + 32) else c

def isAsciiLetter (c : Char) : Bool :=
  (decide ('a' ≤ c) && decide (c ≤ 'z')) || (decide ('A' ≤ c) && decide (c ≤ 'Z'))

def isAsciiDigit (c : Char) : Bool :=
  decide ('0' ≤ c) && decide (c ≤ '9')

/-- The RE2 character class `\s` used by DuckDB's `regexp_replace`:
space, tab, newline, form feed, carriage return. -/
def isRe2Space (c : Char) : Bool :=
  decide (c = ' ') || decide (c = '\t') || decide (c = '\n') ||
    decide (c = '\x0c') || decide (c = '\r')

/-- A character kept (not replaced by a space) by
`regexp_replace(·, '[^a-zA-Z0-9\s]', ' ', 'g')`. -/
def keptChar (c : Char) : Bool :=
  isAsciiLetter c || isAsciiDigit c || isRe2Space c

/-- SQL `regexp_replace(LOWER(text), '[^a-zA-Z0-9\s]', ' ', 'g')`. -/
def normalizeChars (s : List Char) : List Char :=
  (s.map lowerChar).map fun c => if keptChar c then c else ' '

/-- SQL `string_split(s, ' ')`: split on every single space character;
adjacent separators produce empty fragments. -/
def splitOnSpace : List Char → List (List Char)
  | [] => [[]]
  | c :: cs =>
    if c = ' ' then [] :: splitOnSpace cs
    else
      match splitOnSpace cs with
      | [] => [[c]]
      | t :: ts => (c :: t) :: ts

/-- SQL `TRIM` (removes leading and trailing spaces only). -/
def trimSpaces (s : List Char) : List Char :=
  ((s.dropWhile fun c => decide (c = ' ')).reverse.dropWhile fun c =>
    decide (c = ' ')).reverse

/-! ## Configuration (`config.py`)

The `Config` dataclass performs no validation in `__post_init__`; any
`similarity_threshold` and `min_token_length` are stored as given.  Only
the fields the matching algorithms read are modelled (`db_path`, table
and column names configure the storage adapter, not the algorithm). -/

structure Config where
  similarity_threshold : ℚ
  stop_words : List Token
  min_token_length : ℤ
deriving DecidableEq

/-- A row of the source table (or of a new-records table):
`id_field` value plus nullable `text_field` value. -/
structure SourceRow where
  id : RecId
  text : Option (List Char)
deriving DecidableEq

/-- SQL `WHERE {text_field} IS NOT NULL AND LENGTH(TRIM({text_field})) > 0`. -/
def hasUsableText (r : SourceRow) : Bool :=
  match r.text with
  | none => false
  | some s => !(trimSpaces s).isEmpty

/-- The `normalized_text` view of `prime_table.py`: record id paired with
the normalized text, restricted to non-null, non-blank texts. -/
def normalizedTextRows (rows : List SourceRow) : List (RecId × List Char) :=
  (rows.filter hasUsableText).map fun r =>
    (r.id, normalizeChars (r.text.getD []))

/-- Token filter shared by all three tokenizers:
`LENGTH(token) >= min_token_length AND token NOT IN (SELECT word FROM stop_words)`
(the `token IS NOT NULL` conjunct is vacuous after `unnest`). -/
def keepToken (stop : List Token) (minLen : ℤ) (t : Token) : Bool :=
  decide (minLen ≤ (t.length : ℤ)) && !(decide (t ∈ stop))

/-- Embeds `create_blocking_keys` (`prime_table.py`): tokenize the normalized
texts, filter tokens, `SELECT DISTINCT record_id, token`.  The
`stop_words` table contents and `config.min_token_length` are passed
explicitly. -/
def create_blocking_keys (stop : List Token) (minLen : ℤ) (rows : List SourceRow) :
    List (RecId × Token) :=
  (((normalizedTextRows rows).flatMap fun p =>
      (splitOnSpace p.2).map fun t => (p.1, t)).filter fun rt =>
    keepToken stop minLen rt.2).dedup

/-- Embeds `tokenize_new_records` (`inference.py`): textually the same query as
`create_blocking_keys` applied to the new-records table. -/
def tokenize_new_records (stop : List Token) (minLen : ℤ) (rows : List SourceRow) :
    List (RecId × Token) :=
  create_blocking_keys stop minLen rows

/-- Embeds `create_unassigned_blocking_keys` (`cleanup.py`): same tokenization
but with no `WHERE` filter on the text (a NULL text still contributes no
rows, because `string_split(NULL)` unnests to nothing). -/
def create_unassigned_blocking_keys (stop : List Token) (minLen : ℤ)
    (rows : List SourceRow) : List (RecId × Token) :=
  (((rows.filterMap fun r =>
        r.text.map fun s => (r.id, normalizeChars s)).flatMap fun p =>
      (splitOnSpace p.2).map fun t => (p.1, t)).filter fun rt =>
    keepToken stop minLen rt.2).dedup

/-! ## Weight Table (`calculate_weights`, `prime_table.py`;
`calculate_unassigned_weights`, `cleanup.py`, is the same query over the
unassigned blocking keys) -/

/-- DuckDB `ROUND(x, 4)` (round half away from zero; all values rounded
by the pipeline are nonnegative, where this agrees with `round`). -/
def round4 (q : ℚ) : ℚ := ((round (q * 10000) : ℤ) : ℚ) / 10000

/-- The `token_counts` CTE: per distinct token, `COUNT(*)` over the
blocking-keys rows. -/
def tokenCounts (bk : List (RecId × Token)) : List (Token × ℕ) :=
  ((bk.map Prod.snd).dedup).map fun t =>
    (t, (bk.filter fun p => decide (p.2 = t)).length)

/-- SQL `SELECT COUNT(DISTINCT record_id) FROM blocking_keys`. -/
def totalRecords (bk : List (RecId × Token)) : ℕ :=
  ((bk.map Prod.fst).dedup).length

/-- The `token_counts`/`weight_calc`/`log_weights` CTEs: per-token raw
frequency, ratio `avg(raw_frequency) / NULLIF(raw_frequency, 0)` (a zero
raw frequency would give SQL NULL; in the model it gives the rational
`0`, which the `weight > 0` filter below likewise discards), filter
`token != '' AND weight > 0`, then `LN`. -/
def logWeights (ln : ℚ → ℚ) (bk : List (RecId × Token)) : List (Token × ℚ) :=
  let counts := tokenCounts bk
  let total : ℚ := (totalRecords bk : ℚ)
  let raws : List (Token × ℚ) := counts.map fun p => (p.1, (p.2 : ℚ) / total)
  let avg : ℚ := ((raws.map Prod.snd).sum) / (raws.length : ℚ)
  (raws.filter fun p => !p.1.isEmpty && decide (0 < avg / p.2)).map fun p =>
    (p.1, ln (avg / p.2))

/-- The `normalized` CTE and final select of `calculate_weights`:
`(log_weight - MIN OVER()) / NULLIF(MAX OVER() - MIN OVER(), 0)` with
`none` modelling the NULL the zero denominator produces, then
`ROUND(COALESCE(normalized_weight, 0), 4)` restricted by
`WHERE normalized_weight IS NOT NULL`. -/
def normalizeLogWeights (lw : List (Token × ℚ)) : List (Token × ℚ) :=
  let vals := lw.map Prod.snd
  let m := (vals.min?).getD 0
  let M := (vals.max?).getD 0
  let normalized : List (Token × Option ℚ) :=
    lw.map fun p =>
      (p.1, if M - m = 0 then none else some ((p.2 - m) / (M - m)))
  (normalized.filter fun p => p.2.isSome).map fun p =>
    (p.1, round4 (p.2.getD 0))

/-- Embeds `calculate_weights`: frequency ratio, `LN`, min-max normalization,
`ROUND(..., 4)`, mirroring the SQL CTE chain. -/
def calculate_weights (ln : ℚ → ℚ) (bk : List (RecId × Token)) : List (Token × ℚ) :=
  normalizeLogWeights (logWeights ln bk)

/-! ## Candidate Generator (`find_candidate_pairs`, `prime_table.py`;
`find_unassigned_pairs`, `cleanup.py`, is the same query over the
unassigned tables) -/

/-- The join underlying `find_candidate_pairs`: one row per matching
triple of a `bk1` row, a `bk2` row (`ON bk1.token = bk2.token`) and a
weights row (`ON bk1.token = tw.token`), restricted by
`WHERE bk1.record_id < bk2.record_id`. -/
def pairJoinRows (bk : List (RecId × Token)) (wts : List (Token × ℚ)) :
    List (RecId × RecId × ℚ) :=
  bk.flatMap fun p1 =>
    bk.flatMap fun p2 =>
      if p1.2 = p2.2 ∧ p1.1 < p2.1 then
        (wts.filter fun w => decide (w.1 = p1.2)).map fun w => (p1.1, p2.1, w.2)
      else []

/-- Embeds `find_candidate_pairs`: `GROUP BY record_id_1, record_id_2` with
`SUM(tw.weight)` over the join rows. -/
def find_candidate_pairs (bk : List (RecId × Token)) (wts : List (Token × ℚ)) :
    List (RecId × RecId × ℚ) :=
  let rows := pairJoinRows bk wts
  ((rows.map fun r => (r.1, r.2.1)).dedup).map fun k =>
    (k.1, k.2,
      ((rows.filter fun r => decide (r.1 = k.1) && decide (r.2.1 = k.2)).map
        fun r => r.2.2).sum)

/-- Embeds `find_unassigned_pairs` (`cleanup.py`): textually the same query over
`unassigned_blocking_keys` and `unassigned_weights`. -/
def find_unassigned_pairs (bk : List (RecId × Token)) (wts : List (Token × ℚ)) :
    List (RecId × RecId × ℚ) :=
  find_candidate_pairs bk wts

/-- Embeds `filter_by_threshold` (and `filter_unassigned_pairs`):
`WHERE similarity_score >= config.similarity_threshold`. -/
def filter_by_threshold (threshold : ℚ) (pairs : List (RecId × RecId × ℚ)) :
    List (RecId × RecId × ℚ) :=
  pairs.filter fun p => decide (threshold ≤ p.2.2)

/-! ## Cluster Builder (`identify_connected_components`, `prime_table.py`;
`identify_unassigned_components`, `cleanup.py`)

The recursive CTE is a monotone fixed-point computation over the finite
universe of (node, cluster_id) pairs drawn from the records appearing in
the filtered pairs; it is modelled by iterating a single step (base case
united with both recursive branches, `UNION` deduplication) until it is
guaranteed to be stable: each step either discovers a new row out of the
at most `n * n` possible rows or leaves the set unchanged forever. -/

/-- The non-recursive seed of the CTE: every endpoint of a filtered pair
labelled with itself. -/
def ccBase (pairs : List (RecId × RecId)) : List (RecId × RecId) :=
  ((pairs.map fun p => (p.1, p.1)) ++ (pairs.map fun p => (p.2, p.2))).dedup

/-- One evaluation of the CTE body over a current row set `s`:
`s UNION (branch over record_id_1) UNION (branch over record_id_2)`.
`LEAST` is `min`, and the `WHERE cc.cluster_id <> LEAST(...)` guards are
kept exactly as written in the SQL. -/
def ccStep (pairs : List (RecId × RecId)) (s : List (RecId × RecId)) :
    List (RecId × RecId) :=
  (s ++
    (s.flatMap fun cc => pairs.flatMap fun fp =>
      if cc.1 = fp.1 ∧ cc.2 ≠ min cc.2 fp.2 then [(fp.2, min cc.2 fp.2)] else []) ++
    (s.flatMap fun cc => pairs.flatMap fun fp =>
      if cc.1 = fp.2 ∧ cc.2 ≠ min cc.2 fp.1 then [(fp.1, min cc.2 fp.1)] else [])).dedup

/-- The stable row set of the recursive CTE.  At most `2 * pairs.length`
distinct record ids occur, so at most `(2 * pairs.length)ˆ2` distinct
rows exist; every iteration of `ccStep` either adds a row (as a set) or
reaches the closure, hence this many iterations reach it. -/
def ccFix (pairs : List (RecId × RecId)) : List (RecId × RecId) :=
  Nat.iterate (ccStep pairs)
    ((2 * pairs.length) * (2 * pairs.length) + 1) (ccBase pairs)

/-- Embeds `identify_connected_components`: the final
`SELECT node, MIN(cluster_id) ... GROUP BY node` over the stable rows of
the recursive CTE (the scores of the filtered pairs are not read by this
query, so it takes the id pairs only). -/
def identify_connected_components (pairs : List (RecId × RecId)) :
    List (RecId × ClusterId) :=
  let s := ccFix pairs
  ((s.map Prod.fst).dedup).map fun n =>
    (n, (((s.filter fun r => decide (r.1 = n)).map Prod.snd).min?).getD n)

/-- Embeds `identify_unassigned_components` (`cleanup.py`): guarded by an
explicit empty-input check (an empty `unassigned_clusters` table is
created and `0` returned), then the same recursive CTE. -/
def identify_unassigned_components (pairs : List (RecId × RecId)) :
    List (RecId × ClusterId) :=
  if pairs.isEmpty then [] else identify_connected_components pairs

/-! ## Prime table and Build orchestration (`prime_table.py`) -/

/-- A row of the prime table: the source row's columns (`s.*`) plus the
nullable `cluster_id` from the left join with the clusters table. -/
structure PrimeRow where
  id : RecId
  text : Option (List Char)
  cluster_id : Option ClusterId
deriving DecidableEq

/-- Embeds `create_prime_table`: `source LEFT JOIN clusters ON id = record_id`. -/
def create_prime_table (rows : List SourceRow)
    (clusters : List (RecId × ClusterId)) : List PrimeRow :=
  rows.flatMap fun r =>
    match clusters.filter fun c => decide (c.1 = r.id) with
    | [] => [⟨r.id, r.text, none⟩]
    | cs => cs.map fun c => ⟨r.id, r.text, some c.2⟩

/-- DuckDB `ROUND(x, 2)` (used for the average cluster size). -/
def round2 (q : ℚ) : ℚ := ((round (q * 100) : ℤ) : ℚ) / 100

/-- Embeds `get_summary_stats`: `COUNT(DISTINCT cluster_id)` ignores NULLs;
`avg_cluster_size` is `AVG` over the per-cluster sizes, NULL (`none`)
when no record is clustered. -/
structure Step1Stats where
  total_clusters : ℕ
  total_records : ℕ
  clustered_records : ℕ
  unclustered_records : ℕ
  avg_cluster_size : Option ℚ
deriving DecidableEq

def distinctClusterIds (prime : List PrimeRow) : List ClusterId :=
  (prime.filterMap fun r => r.cluster_id).dedup

def get_summary_stats (prime : List PrimeRow) : Step1Stats :=
  let clustered := prime.filter fun r => r.cluster_id.isSome
  let cids := distinctClusterIds prime
  { total_clusters := cids.length
    total_records := prime.length
    clustered_records := clustered.length
    unclustered_records := (prime.filter fun r => r.cluster_id.isNone).length
    avg_cluster_size :=
      if clustered.isEmpty then none
      else
        some (round2 (((cids.map fun c =>
          ((clustered.filter fun r => decide (r.cluster_id = some c)).length : ℚ)).sum)
            / (cids.length : ℚ))) }

/-- All tables written by `run_step_1`, plus its returned statistics. -/
structure Step1Result where
  stop_words : List Token
  blocking_keys : List (RecId × Token)
  weights : List (Token × ℚ)
  candidate_pairs : List (RecId × RecId × ℚ)
  filtered_pairs : List (RecId × RecId × ℚ)
  clusters : List (RecId × ClusterId)
  prime : List PrimeRow
  stats : Step1Stats

/-! `run_step_1` (Build): each SQL statement of the Step 1 pipeline reads
the tables the previous statements created; each stage is a named
definition (`ln` models SQL `LN` throughout). -/

def step1_bk (config : Config) (rows : List SourceRow) : List (RecId × Token) :=
  create_blocking_keys config.stop_words config.min_token_length rows

def step1_weights (ln : ℚ → ℚ) (config : Config) (rows : List SourceRow) :
    List (Token × ℚ) :=
  calculate_weights ln (step1_bk config rows)

def step1_cand (ln : ℚ → ℚ) (config : Config) (rows : List SourceRow) :
    List (RecId × RecId × ℚ) :=
  find_candidate_pairs (step1_bk config rows) (step1_weights ln config rows)

def step1_filtered (ln : ℚ → ℚ) (config : Config) (rows : List SourceRow) :
    List (RecId × RecId × ℚ) :=
  filter_by_threshold config.similarity_threshold (step1_cand ln config rows)

def step1_clusters (ln : ℚ → ℚ) (config : Config) (rows : List SourceRow) :
    List (RecId × ClusterId) :=
  identify_connected_components
    ((step1_filtered ln config rows).map fun p => (p.1, p.2.1))

def step1_prime (ln : ℚ → ℚ) (config : Config) (rows : List SourceRow) :
    List PrimeRow :=
  create_prime_table rows (step1_clusters ln config rows)

/-- Embeds `run_step_1` (Build): the full Step 1 pipeline, returning every
table it wrote and the summary statistics. -/
def run_step_1 (ln : ℚ → ℚ) (config : Config) (rows : List SourceRow) :
    Step1Result :=
  { stop_words := config.stop_words
    blocking_keys := step1_bk config rows
    weights := step1_weights ln config rows
    candidate_pairs := step1_cand ln config rows
    filtered_pairs := step1_filtered ln config rows
    clusters := step1_clusters ln config rows
    prime := step1_prime ln config rows
    stats := get_summary_stats (step1_prime ln config rows) }

/-! ## Inference (`inference.py`)

`rank_matches` orders candidates with
`ROW_NUMBER() OVER (PARTITION BY query_id ORDER BY similarity_score DESC)`.
SQL fixes only the sort key, so the embedding takes the engine's chosen
ordering as a parameter `σ` constrained to `validSort`: on every list it
must return a permutation sorted by descending score.  Every ordering a
SQL engine may legally produce is such a `σ`. -/

/-- A row of `inference_candidates`: the `GROUP BY` key
(`query_id`, `prime_record_id`, `prime_cluster_id` — the latter non-null
by the `WHERE pt.cluster_id IS NOT NULL` filter) plus the summed score. -/
structure Cand where
  query : RecId
  ref : RecId
  cluster : ClusterId
  score : ℚ
deriving DecidableEq

/-- The join underlying `find_candidates`: `new_record_tokens` ×
`blocking_keys` (on token) × weights (on token) × prime table (on record
id), restricted to non-null cluster ids. -/
def candJoinRows (newTokens bk : List (RecId × Token)) (wts : List (Token × ℚ))
    (prime : List PrimeRow) : List (Cand) :=
  newTokens.flatMap fun nt =>
    bk.flatMap fun b =>
      if nt.2 = b.2 then
        (wts.filter fun w => decide (w.1 = nt.2)).flatMap fun w =>
          (prime.filter fun pt => decide (pt.id = b.1)).flatMap fun pt =>
            match pt.cluster_id with
            | some c => [⟨nt.1, b.1, c, w.2⟩]
            | none => []
      else []

/-- Embeds `find_candidates`: group the join rows by
`(query_id, prime_record_id, prime_cluster_id)` and sum the weights. -/
def find_candidates (newTokens bk : List (RecId × Token)) (wts : List (Token × ℚ))
    (prime : List PrimeRow) : List Cand :=
  let rows := candJoinRows newTokens bk wts prime
  ((rows.map fun r => (r.query, r.ref, r.cluster)).dedup).map fun k =>
    ⟨k.1, k.2.1, k.2.2,
      ((rows.filter fun r =>
          decide (r.query = k.1) && decide (r.ref = k.2.1) &&
            decide (r.cluster = k.2.2)).map fun r => r.score).sum⟩

/-- SQL `ROW_NUMBER()` starting from `k` along a list. -/
def rowNumberFrom {α : Type} (k : ℕ) : List α → List (α × ℕ)
  | [] => []
  | c :: cs => (c, k) :: rowNumberFrom (k + 1) cs

/-- A legal realization of `ORDER BY similarity_score DESC`: a
permutation of the input sorted by non-increasing score. -/
def validSort (σ : List Cand → List Cand) : Prop :=
  ∀ l : List Cand, (σ l).Perm l ∧ (σ l).Sorted fun a b => b.score ≤ a.score

/-- Embeds `rank_matches`: per `query_id` partition, number the candidates in
the order `σ` chosen by the engine for `ORDER BY similarity_score DESC`. -/
def rank_matches (σ : List Cand → List Cand) (cands : List Cand) :
    List (Cand × ℕ) :=
  ((cands.map fun c => c.query).dedup).flatMap fun q =>
    rowNumberFrom 1 (σ (cands.filter fun c => decide (c.query = q)))

/-- A row of the `inferred_matches` table. -/
structure InferredMatch where
  query_id : RecId
  matched_record_id : RecId
  assigned_cluster_id : ClusterId
  similarity_score : ℚ
  match_rank : ℕ
deriving DecidableEq

/-- Embeds `create_inferred_matches`:
`WHERE match_rank = 1 AND similarity_score >= threshold`. -/
def create_inferred_matches (threshold : ℚ) (ranked : List (Cand × ℕ)) :
    List InferredMatch :=
  (ranked.filter fun r => decide (r.2 = 1) && decide (threshold ≤ r.1.score)).map
    fun r => ⟨r.1.query, r.1.ref, r.1.cluster, r.1.score, r.2⟩

def matchedStr : List Char := "matched".toList

def unmatchedStr : List Char := "unmatched".toList

/-- A row of `inference_results`: the new record's columns plus the
columns of the (possibly absent) inferred match, plus the
`CASE WHEN assigned_cluster_id IS NOT NULL` status. -/
structure InfRow where
  id : RecId
  text : Option (List Char)
  assigned_cluster_id : Option ClusterId
  matched_record_id : Option RecId
  similarity_score : Option ℚ
  match_status : List Char
deriving DecidableEq

/-- Embeds `create_inference_results`:
`new_records LEFT JOIN inferred_matches ON id = query_id`. -/
def create_inference_results (newRecs : List SourceRow)
    (im : List InferredMatch) : List InfRow :=
  newRecs.flatMap fun nr =>
    match im.filter fun m => decide (m.query_id = nr.id) with
    | [] => [⟨nr.id, nr.text, none, none, none, unmatchedStr⟩]
    | ms => ms.map fun m =>
        ⟨nr.id, nr.text, some m.assigned_cluster_id, some m.matched_record_id,
          some m.similarity_score,
          if (some m.assigned_cluster_id).isSome then matchedStr else unmatchedStr⟩

/-- The database tables read or written by Step 2 (Infer).  Step 1 wrote
`stop_words`, `blocking_keys`, `weights` and `prime`; Step 2 writes only
its own five tables. -/
structure DB where
  stop_words : List Token
  blocking_keys : List (RecId × Token)
  weights : List (Token × ℚ)
  prime : List PrimeRow
  new_record_tokens : List (RecId × Token)
  inference_candidates : List Cand
  ranked_matches : List (Cand × ℕ)
  inferred_matches : List InferredMatch
  inference_results : List InfRow
deriving DecidableEq

/-! `run_step_2` (Infer): tokenize the new records (against the stored
`stop_words` table and the configured minimum token length), score them
against the stored blocking keys, weights and prime table, rank with the
engine-chosen order `σ`, apply the threshold, and emit per-record
results.  Each stage is a named definition; each SQL statement of
`run_step_2` is a `CREATE OR REPLACE TABLE` of one of the five inference
tables, and no other table is touched.  (The returned statistics
dictionary only aggregates `inference_results` and is not modelled.) -/

def step2_tokens (config : Config) (db : DB) (newRecs : List SourceRow) :
    List (RecId × Token) :=
  tokenize_new_records db.stop_words config.min_token_length newRecs

def step2_cands (config : Config) (db : DB) (newRecs : List SourceRow) :
    List Cand :=
  find_candidates (step2_tokens config db newRecs) db.blocking_keys db.weights
    db.prime

def step2_ranked (config : Config) (σ : List Cand → List Cand) (db : DB)
    (newRecs : List SourceRow) : List (Cand × ℕ) :=
  rank_matches σ (step2_cands config db newRecs)

def step2_inferred (config : Config) (σ : List Cand → List Cand) (db : DB)
    (newRecs : List SourceRow) : List InferredMatch :=
  create_inferred_matches config.similarity_threshold
    (step2_ranked config σ db newRecs)

def step2_results (config : Config) (σ : List Cand → List Cand) (db : DB)
    (newRecs : List SourceRow) : List InfRow :=
  create_inference_results newRecs (step2_inferred config σ db newRecs)

def run_step_2 (config : Config) (σ : List Cand → List Cand) (db : DB)
    (newRecs : List SourceRow) : DB :=
  { db with
      new_record_tokens := step2_tokens config db newRecs
      inference_candidates := step2_cands config db newRecs
      ranked_matches := step2_ranked config σ db newRecs
      inferred_matches := step2_inferred config σ db newRecs
      inference_results := step2_results config σ db newRecs }

/-! ## Reconcile (`cleanup.py`) -/

/-- Embeds `identify_unassigned`:
`SELECT * FROM inference_results WHERE match_status = 'unmatched'`. -/
def identify_unassigned (inference_results : List InfRow) : List InfRow :=
  inference_results.filter fun r => decide (r.match_status = unmatchedStr)

/-- Embeds `calculate_unassigned_weights` (`cleanup.py`): textually the same
query as `calculate_weights` over `unassigned_blocking_keys`. -/
def calculate_unassigned_weights (ln : ℚ → ℚ) (bk : List (RecId × Token)) :
    List (Token × ℚ) :=
  calculate_weights ln bk

def newClusterMarker : List Char := "NEW_".toList

/-- Embeds `generate_new_cluster_ids`: maps each distinct old (self-clustering)
cluster id, in `ORDER BY cluster_id` order, to `'NEW_' || ROW_NUMBER()`.
The `max_existing` CTE of the SQL computes
`COALESCE(MAX(cluster_id), '0')` over the prime table but is referenced
nowhere in the rest of the query, so the generated names do not depend
on the prime table at all; the parameter is kept to mirror the SQL shape. -/
def generate_new_cluster_ids (prime : List PrimeRow)
    (uclusters : List (RecId × ClusterId)) : List (RecId × ClusterId) :=
  let _max_existing :=
    ((prime.filterMap fun r => r.cluster_id).max?).getD ['0']
  let mapping : List (ClusterId × ClusterId) :=
    (rowNumberFrom 1
      (((uclusters.map Prod.snd).dedup).insertionSort fun a b => a ≤ b)).map
        fun p => (p.1, newClusterMarker ++ (Nat.repr p.2).toList)
  uclusters.flatMap fun uc =>
    (mapping.filter fun m => decide (m.1 = uc.2)).map fun m => (uc.1, m.2)

/-- Embeds `update_prime_table`: when `new_clusters` is non-empty, `UPDATE` the
prime-table rows whose id occurs in `new_clusters`; rows whose id does
not occur are left unchanged (and nothing is inserted).  Returns the
updated table together with the function's return value `new_count`,
which is `COUNT(*) FROM new_clusters` — not the number of rows the
`UPDATE` actually touched. -/
def update_prime_table (prime : List PrimeRow)
    (new_clusters : List (RecId × ClusterId)) : List PrimeRow × ℕ :=
  let new_count := new_clusters.length
  (if new_count > 0 then
      prime.map fun row =>
        match new_clusters.filter fun nc => decide (nc.1 = row.id) with
        | [] => row
        | nc :: _ => { row with cluster_id := some nc.2 }
    else prime,
    new_count)

/-- The statistics dictionary returned by Step 3
(`still_unassigned` is a Python integer difference). -/
structure CleanupStats where
  total_unassigned : ℕ
  newly_clustered : ℕ
  new_clusters_created : ℕ
  still_unassigned : ℤ
deriving DecidableEq

/-- Embeds `get_cleanup_stats`. -/
def get_cleanup_stats (unassigned : List InfRow)
    (new_clusters : List (RecId × ClusterId)) : CleanupStats :=
  { total_unassigned := unassigned.length
    newly_clustered := new_clusters.length
    new_clusters_created := ((new_clusters.map Prod.snd).dedup).length
    still_unassigned := (unassigned.length : ℤ) - (new_clusters.length : ℤ) }

/-- All tables written by `run_step_3`, the updated prime table, and the
returned statistics. -/
structure CleanupResult where
  unassigned : List InfRow
  blocking_keys : List (RecId × Token)
  weights : List (Token × ℚ)
  candidate_pairs : List (RecId × RecId × ℚ)
  filtered_pairs : List (RecId × RecId × ℚ)
  unassigned_clusters : List (RecId × ClusterId)
  new_clusters : List (RecId × ClusterId)
  prime : List PrimeRow
  stats : CleanupStats
deriving DecidableEq

/-- Embeds `run_step_3` (Reconcile): if no record is unassigned, return the
zero statistics immediately (no table is created, the prime table is
untouched); otherwise re-run the Build pipeline scoped to the unassigned
records (`filter_unassigned_pairs` is the same threshold filter as
`filter_by_threshold`), generate fresh names and update the prime table.
The `stop_words` table read by the tokenizer is the one Step 1 wrote. -/
def run_step_3 (ln : ℚ → ℚ) (config : Config) (stop : List Token)
    (inference_results : List InfRow) (prime : List PrimeRow) : CleanupResult :=
  let unassigned := identify_unassigned inference_results
  if unassigned.isEmpty then
    { unassigned := unassigned
      blocking_keys := []
      weights := []
      candidate_pairs := []
      filtered_pairs := []
      unassigned_clusters := []
      new_clusters := []
      prime := prime
      stats := ⟨0, 0, 0, 0⟩ }
  else
    let bk := create_unassigned_blocking_keys stop config.min_token_length
      (unassigned.map fun r => ⟨r.id, r.text⟩)
    let wts := calculate_unassigned_weights ln bk
    let cand := find_unassigned_pairs bk wts
    let filtered := filter_by_threshold config.similarity_threshold cand
    let uclusters :=
      identify_unassigned_components (filtered.map fun p => (p.1, p.2.1))
    let newc := generate_new_cluster_ids prime uclusters
    let updated := update_prime_table prime newc
    { unassigned := unassigned
      blocking_keys := bk
      weights := wts
      candidate_pairs := cand
      filtered_pairs := filtered
      unassigned_clusters := uclusters
      new_clusters := newc
      prime := updated.1
      stats := get_cleanup_stats unassigned newc }

/-! ## Character classes of blocking-key tokens -/

def isAsciiLower (c : Char) : Bool := decide ('a' ≤ c) && decide (c ≤ 'z')

/-- The token alphabet asserted by the specification: lowercase ASCII
letters and digits only. -/
def isLowerAlphaNum (c : Char) : Bool := isAsciiLower c || isAsciiDigit c

lemma toNat_char_ofNat {n : ℕ} (h : n.isValidChar) : (Char.ofNat n).toNat = n := by
  rw [Char.ofNat, dif_pos h]; rfl

lemma char_le_iff_toNat {a b : Char} : a ≤ b ↔ a.toNat ≤ b.toNat := by
  rw [Char.le_def, UInt32.le_def, BitVec.le_def]; rfl

/-- SQL `LOWER` never produces an uppercase ASCII letter. -/
lemma lowerChar_not_upper (x : Char) :
    ¬(65 ≤ (lowerChar x).toNat ∧ (lowerChar x).toNat ≤ 90) := by
  unfold lowerChar
  by_cases hx : ('A' ≤ x ∧ x ≤ 'Z')
  · rw [if_pos hx]
    have hA : ('A' : Char).toNat = 65 := by decide
    have hZ : ('Z' : Char).toNat = 90 := by decide
    have hx65 : 65 ≤ x.toNat := by
      have := char_le_iff_toNat.mp hx.1; omega
    have hx90 : x.toNat ≤ 90 := by
      have := char_le_iff_toNat.mp hx.2; omega
    rw [toNat_char_ofNat (Or.inl (by omega))]
    omega
  · rw [if_neg hx]
    intro h
    have hA : ('A' : Char).toNat = 65 := by decide
    have hZ : ('Z' : Char).toNat = 90 := by decide
    exact hx ⟨char_le_iff_toNat.mpr (by omega), char_le_iff_toNat.mpr (by omega)⟩

lemma isAsciiLower_iff {c : Char} :
    isAsciiLower c = true ↔ 97 ≤ c.toNat ∧ c.toNat ≤ 122 := by
  have h1 : ('a' : Char).toNat = 97 := by decide
  have h2 : ('z' : Char).toNat = 122 := by decide
  constructor
  · intro h
    simp only [isAsciiLower, Bool.and_eq_true, decide_eq_true_eq] at h
    exact ⟨by have := char_le_iff_toNat.mp h.1; omega,
      by have := char_le_iff_toNat.mp h.2; omega⟩
  · intro h
    simp only [isAsciiLower, Bool.and_eq_true, decide_eq_true_eq]
    exact ⟨char_le_iff_toNat.mpr (by omega), char_le_iff_toNat.mpr (by omega)⟩

lemma isAsciiLetter_iff {c : Char} :
    isAsciiLetter c = true ↔
      (97 ≤ c.toNat ∧ c.toNat ≤ 122) ∨ (65 ≤ c.toNat ∧ c.toNat ≤ 90) := by
  have h1 : ('a' : Char).toNat = 97 := by decide
  have h2 : ('z' : Char).toNat = 122 := by decide
  have h3 : ('A' : Char).toNat = 65 := by decide
  have h4 : ('Z' : Char).toNat = 90 := by decide
  simp only [isAsciiLetter, Bool.or_eq_true, Bool.and_eq_true, decide_eq_true_eq]
  constructor
  · rintro (h | h)
    · exact Or.inl ⟨by have := char_le_iff_toNat.mp h.1; omega,
        by have := char_le_iff_toNat.mp h.2; omega⟩
    · exact Or.inr ⟨by have := char_le_iff_toNat.mp h.1; omega,
        by have := char_le_iff_toNat.mp h.2; omega⟩
  · rintro (h | h)
    · exact Or.inl ⟨char_le_iff_toNat.mpr (by omega), char_le_iff_toNat.mpr (by omega)⟩
    · exact Or.inr ⟨char_le_iff_toNat.mpr (by omega), char_le_iff_toNat.mpr (by omega)⟩

/-- The character the normalizer emits for an input character `x` is a
lowercase ASCII letter, an ASCII digit, or RE2 whitespace (`LOWER`
leaves no uppercase letter, and the regular expression replaces every
other character by a space, itself RE2 whitespace). -/
lemma normalizer_char_class (x : Char) :
    (isLowerAlphaNum (if keptChar (lowerChar x) then lowerChar x else ' ') ||
      isRe2Space (if keptChar (lowerChar x) then lowerChar x else ' ')) = true := by
  by_cases hk : keptChar (lowerChar x) = true
  · rw [if_pos hk]
    have hcases : isAsciiLetter (lowerChar x) = true ∨
        isAsciiDigit (lowerChar x) = true ∨ isRe2Space (lowerChar x) = true := by
      simpa [keptChar, Bool.or_assoc] using hk
    rcases hcases with hl | hd | hs
    · rcases isAsciiLetter_iff.mp hl with hlow | hup
      · simp only [isLowerAlphaNum, Bool.or_eq_true]
        exact Or.inl (Or.inl (isAsciiLower_iff.mpr hlow))
      · exact absurd hup (lowerChar_not_upper x)
    · simp only [isLowerAlphaNum, Bool.or_eq_true, Bool.or_assoc]
      exact Or.inr (Or.inl hd)
    · simp only [isLowerAlphaNum, Bool.or_eq_true, Bool.or_assoc]
      exact Or.inr (Or.inr hs)
  · rw [if_neg hk]
    decide

/-- Every character of a normalized text is a lowercase ASCII letter, an
ASCII digit, or one of the RE2 whitespace characters. -/
lemma normalizeChars_char_class {s : List Char} {c : Char}
    (hc : c ∈ normalizeChars s) :
    (isLowerAlphaNum c || isRe2Space c) = true := by
  unfold normalizeChars at hc
  rw [List.map_map] at hc
  rcases List.mem_map.mp hc with ⟨x, _, hfx⟩
  have h := normalizer_char_class x
  rw [Function.comp] at hfx
  rw [hfx] at h
  exact h

lemma splitOnSpace_ne_nil (l : List Char) : splitOnSpace l ≠ [] := by
  induction l with
  | nil => simp [splitOnSpace]
  | cons c cs ih =>
    rw [splitOnSpace]
    split
    · simp
    · cases hsp : splitOnSpace cs with
      | nil => exact absurd hsp ih
      | cons t ts => simp

/-- Fragments produced by `string_split(s, ' ')` contain no space and
only characters of `s`. -/
lemma mem_splitOnSpace {l t : List Char} (ht : t ∈ splitOnSpace l) :
    ∀ c ∈ t, c ∈ l ∧ c ≠ ' ' := by
  induction l generalizing t with
  | nil =>
    simp only [splitOnSpace, List.mem_singleton] at ht
    subst ht; simp
  | cons a cs ih =>
    rw [splitOnSpace] at ht
    by_cases ha : a = ' '
    · rw [if_pos ha] at ht
      rcases List.mem_cons.mp ht with h | h
      · subst h; simp
      · intro c hc
        rcases ih h c hc with ⟨h1, h2⟩
        exact ⟨List.mem_cons_of_mem a h1, h2⟩
    · rw [if_neg ha] at ht
      cases hsp : splitOnSpace cs with
      | nil => exact absurd hsp (splitOnSpace_ne_nil cs)
      | cons t₀ ts =>
        rw [hsp] at ht
        rcases List.mem_cons.mp ht with h | h
        · subst h
          intro c hc
          rcases List.mem_cons.mp hc with h | h
          · subst h; exact ⟨List.mem_cons_self _ _, ha⟩
          · have ht₀ : t₀ ∈ splitOnSpace cs := by rw [hsp]; exact List.mem_cons_self t₀ ts
            rcases ih ht₀ c h with ⟨h1, h2⟩
            exact ⟨List.mem_cons_of_mem a h1, h2⟩
        · have hts : t ∈ splitOnSpace cs := by rw [hsp]; exact List.mem_cons_of_mem t₀ h
          intro c hc
          rcases ih hts c hc with ⟨h1, h2⟩
          exact ⟨List.mem_cons_of_mem a h1, h2⟩

/-- The row invariant actually enforced by the three blocking-keys
builders: minimum length, stop-word exclusion, and characters drawn from
lowercase ASCII letters, ASCII digits, or RE2 whitespace other than the
space character (which always survives `string_split(·, ' ')` when the
raw text contains an embedded tab, newline, form feed or carriage
return). -/
def tokenRowOk (stop : List Token) (minLen : ℤ) (rt : RecId × Token) : Prop :=
  minLen ≤ (rt.2.length : ℤ) ∧ rt.2 ∉ stop ∧
    ∀ c ∈ rt.2, isLowerAlphaNum c = true ∨ (isRe2Space c = true ∧ c ≠ ' ')

/-- Any tokenizer output row over inputs whose texts are normalizer
outputs satisfies `tokenRowOk`. -/
lemma tokenRowOk_of_mem {stop : List Token} {minLen : ℤ}
    {X : List (RecId × List Char)} (hX : ∀ p ∈ X, ∃ s, p.2 = normalizeChars s)
    {rt : RecId × Token}
    (h : rt ∈ ((X.flatMap fun p => (splitOnSpace p.2).map fun t => (p.1, t)).filter
      fun rt => keepToken stop minLen rt.2).dedup) :
    tokenRowOk stop minLen rt := by
  rw [List.mem_dedup, List.mem_filter] at h
  obtain ⟨hmem, hkeep⟩ := h
  simp only [keepToken, Bool.and_eq_true, Bool.not_eq_true', decide_eq_true_eq,
    decide_eq_false_iff_not] at hkeep
  refine ⟨hkeep.1, hkeep.2, ?_⟩
  rcases List.mem_flatMap.mp hmem with ⟨p, hp, hrt⟩
  rcases List.mem_map.mp hrt with ⟨t, ht, hteq⟩
  rcases hX p hp with ⟨s, hs⟩
  intro c hc
  have hct : c ∈ t := by rw [← hteq] at hc; exact hc
  have hsplit := mem_splitOnSpace ht c hct
  have hclass := normalizeChars_char_class (hs ▸ hsplit.1)
  rcases Bool.or_eq_true_iff.mp hclass with h1 | h2
  · exact Or.inl h1
  · exact Or.inr ⟨h2, hsplit.2⟩

lemma normalizedTextRows_shape {rows : List SourceRow} :
    ∀ p ∈ normalizedTextRows rows, ∃ s, p.2 = normalizeChars s := by
  intro p hp
  rcases List.mem_map.mp hp with ⟨r, _, hr⟩
  exact ⟨r.text.getD [], by rw [← hr]⟩

lemma unassignedTextRows_shape {rows : List SourceRow} :
    ∀ p ∈ rows.filterMap fun r => r.text.map fun s => (r.id, normalizeChars s),
      ∃ s, p.2 = normalizeChars s := by
  intro p hp
  rcases List.mem_filterMap.mp hp with ⟨r, _, hr⟩
  cases htext : r.text with
  | none => rw [htext] at hr; exact absurd hr (by simp)
  | some s =>
    rw [htext] at hr
    refine ⟨s, ?_⟩
    have : (r.id, normalizeChars s) = p := by simpa using hr
    rw [← this]

/-- C10 (amended): every blocking-keys table built by Build, Infer or
Reconcile has pairwise-distinct `(record_id, token)` rows, and every
token has length at least `min_token_length`, is not a stop word, and
consists of lowercase ASCII letters, ASCII digits, or RE2 whitespace
characters other than the space itself.  (The original claim's "only
lowercase letters and digits, no whitespace" is refuted by
`c10_blocking_keys_counterexample`: `regexp_replace` keeps every RE2
`\s` character while `string_split` splits only on the space character,
so tabs, newlines, form feeds and carriage returns survive inside
tokens.) -/
theorem c10_blocking_keys_invariant_amended (stop : List Token) (minLen : ℤ)
    (rows : List SourceRow) :
    ((create_blocking_keys stop minLen rows).Nodup ∧
      (tokenize_new_records stop minLen rows).Nodup ∧
      (create_unassigned_blocking_keys stop minLen rows).Nodup) ∧
    (∀ rt ∈ create_blocking_keys stop minLen rows, tokenRowOk stop minLen rt) ∧
    (∀ rt ∈ tokenize_new_records stop minLen rows, tokenRowOk stop minLen rt) ∧
    (∀ rt ∈ create_unassigned_blocking_keys stop minLen rows,
      tokenRowOk stop minLen rt) := by
  refine ⟨⟨List.nodup_dedup _, List.nodup_dedup _, List.nodup_dedup _⟩, ?_, ?_, ?_⟩
  · intro rt h
    exact tokenRowOk_of_mem normalizedTextRows_shape h
  · intro rt h
    exact tokenRowOk_of_mem normalizedTextRows_shape h
  · intro rt h
    exact tokenRowOk_of_mem unassignedTextRows_shape h

def w_rid : RecId := "r1".toList

def w_tab_text : List Char := "ab\tcd".toList

def c10_rows : List SourceRow := [⟨w_rid, some w_tab_text⟩]

/-- C10 (counterexample to the claim as stated): the raw text
`"ab\tcd"` yields the single blocking-keys token `"ab\tcd"`, which
contains a tab — not only ASCII lowercase letters and digits. -/
theorem c10_blocking_keys_counterexample :
    ((w_rid, w_tab_text) ∈ create_blocking_keys [] 2 c10_rows) ∧
    ¬∀ c ∈ w_tab_text, isLowerAlphaNum c = true := by decide

/-- C10 (witness): the amended invariant evaluated on the same
concrete input. -/
theorem c10_blocking_keys_invariant_witness :
    tokenRowOk [] 2 (w_rid, w_tab_text) :=
  (c10_blocking_keys_invariant_amended [] 2 c10_rows).2.1 (w_rid, w_tab_text)
    (by decide)

/-! ## C1: the recursive connected-components CTE never merges anything

In both recursive branches the guard `WHERE cc.cluster_id <> LEAST(cc.cluster_id, fp.record_id_X)`
holds exactly when `fp.record_id_X < cc.cluster_id`, in which case the
emitted row is `(record_id_X, record_id_X)` — a row the base case
already contains.  The propagation of a *smaller* label to a neighbour
(`cc.cluster_id < record_id_X`, emitting `(record_id_X, cc.cluster_id)`)
is exactly the case the guard excludes.  The fixed point therefore
consists of the self-labelled base rows only, and every record touched
by a filtered pair becomes its own singleton cluster. -/

/-- SQL `SELECT cluster_id FROM clusters WHERE record_id = x`. -/
def clusterLookup (tbl : List (RecId × ClusterId)) (x : RecId) : List ClusterId :=
  (tbl.filter fun r => decide (r.1 = x)).map Prod.snd

def cc_a : RecId := "t1".toList

def cc_b : RecId := "t2".toList

/-- C1 (refuting evaluation): records `t1` and `t2` are directly
connected by a pair whose score `1` meets the threshold `1`, yet
`identify_connected_components` assigns `t1 ↦ t1` and `t2 ↦ t2` — two
distinct cluster ids — where the claim requires both to receive the
component minimum `t1`.  `identify_unassigned_components` (Reconcile's
self-clustering) behaves identically. -/
theorem c1_connected_components_no_merge :
    (filter_by_threshold 1 [(cc_a, cc_b, 1)]).map (fun p => (p.1, p.2.1))
        = [(cc_a, cc_b)] ∧
    clusterLookup (identify_connected_components [(cc_a, cc_b)]) cc_a = [cc_a] ∧
    clusterLookup (identify_connected_components [(cc_a, cc_b)]) cc_b = [cc_b] ∧
    clusterLookup (identify_unassigned_components [(cc_a, cc_b)]) cc_b = [cc_b] ∧
    cc_a ≠ cc_b := by decide

/-! ## C2: Reconcile's new ids collide and its update misses new records -/

def c2_rid_a : RecId := "a1".toList

def c2_rid_n1 : RecId := "n1".toList

def c2_rid_n2 : RecId := "n2".toList

def c2_text : List Char := "x".toList

def c2_new1 : ClusterId := "NEW_1".toList

/-- A prime table that already contains cluster id `NEW_1` (exactly what
a previous Reconcile run leaves behind when its update finds matching
record ids). -/
def c2_prime : List PrimeRow := [⟨c2_rid_a, some c2_text, some c2_new1⟩]

/-- Self-clustering output for two still-unassigned records. -/
def c2_uclusters : List (RecId × ClusterId) := [(c2_rid_n1, c2_rid_n1), (c2_rid_n2, c2_rid_n2)]

/-- A prime table whose only record id differs from the reconciled
record's id (the normal situation: new records are not source records). -/
def c2_prime_b : List PrimeRow := [⟨c2_rid_a, some c2_text, some c2_rid_a⟩]

def c2_new_clusters : List (RecId × ClusterId) := [(c2_rid_n1, c2_new1)]

/-- C2 (refuting evaluation): (i) `generate_new_cluster_ids` reads
the prime table only through the `max_existing` CTE, which the rest of
the query never references, so it emits `NEW_1` again even though the
prime table already carries cluster id `NEW_1` — the generated ids are
not disjoint from the existing ones; (ii) `update_prime_table` updates
only prime-table rows whose id occurs in `new_clusters` and inserts
nothing, so a newly clustered record absent from the prime table (every
genuinely new record) never appears in the persisted mapping, while the
function still reports `1` record updated. -/
theorem c2_reconcile_persistence_bug :
    (c2_new1 ∈ (generate_new_cluster_ids c2_prime c2_uclusters).map Prod.snd ∧
      c2_new1 ∈ c2_prime.filterMap fun r => r.cluster_id) ∧
    ((update_prime_table c2_prime_b c2_new_clusters).1 = c2_prime_b ∧
      (update_prime_table c2_prime_b c2_new_clusters).2 = 1 ∧
      (c2_prime_b.filter fun r => decide (r.id = c2_rid_n1)) = []) := by decide

/-! ## C3: the degenerate-corpus guard of `calculate_weights` is dead code

When every surviving token has the same log weight the window
denominator `NULLIF(MAX - MIN, 0)` is NULL, so `normalized_weight` is
NULL for *every* row; the final `WHERE normalized_weight IS NOT NULL`
then removes every row before the `COALESCE(normalized_weight, 0)`
guard can ever produce the claimed weight `0`. -/

def c3_tok : Token := "aa".toList

def c3_bk : List (RecId × Token) := [(w_rid, c3_tok)]

/-- C3 (refuting evaluation): a corpus with a single record and a
single token (ratio `1` for its only token, hence equal minimum and
maximum log weight for every possible `ln`) produces an *empty* weight
table; the claim requires the token to receive weight `0`. -/
theorem c3_degenerate_weights_dropped (ln : ℚ → ℚ) :
    calculate_weights ln c3_bk = [] ∧ tokenCounts c3_bk ≠ [] := by
  constructor
  · simp [calculate_weights, logWeights, normalizeLogWeights, c3_bk, c3_tok,
      tokenCounts, totalRecords, round4]
  · simp [tokenCounts, c3_bk, c3_tok]

/-! ## C5: ranking has no tie-break key

`rank_matches` orders by `similarity_score DESC` alone; no secondary
sort key appears in the `OVER` clause, so among equal-score candidates
the engine may legally return any order. -/

/-- A list as `ORDER BY similarity_score DESC` may legally return it: a
permutation of the input sorted by non-increasing score. -/
def isRankingOf (cands l : List Cand) : Prop :=
  l.Perm cands ∧ l.Sorted fun a b => b.score ≤ a.score

lemma isRankingOf_head_max {cands : List Cand} {c : Cand} {t : List Cand}
    (h : isRankingOf cands (c :: t)) : c ∈ cands ∧ ∀ x ∈ cands, x.score ≤ c.score := by
  obtain ⟨hperm, hsorted⟩ := h
  refine ⟨hperm.subset (List.mem_cons_self _ _), ?_⟩
  intro x hx
  rcases List.mem_cons.mp (hperm.symm.subset hx) with h | h
  · subst h; exact le_refl _
  · exact (List.sorted_cons.mp hsorted).1 x h

/-- C5 (amended): two legal rankings of the same candidate list
always agree on the *score* of the top-ranked candidate, and they agree
on the top-ranked candidate itself whenever no two candidates share a
score; with a tie at the top the selected candidate is unspecified
(refuted as originally stated by `c5_rank_ties_counterexample`). -/
theorem c5_rank_determinism_amended (cands l1 l2 : List Cand)
    (h1 : isRankingOf cands l1) (h2 : isRankingOf cands l2) :
    (l1.head?.map Cand.score = l2.head?.map Cand.score) ∧
    ((cands.Pairwise fun a b => a.score ≠ b.score) → l1.head? = l2.head?) := by
  cases l1 with
  | nil =>
    have hc : cands = [] := (List.Perm.nil_eq h1.1).symm
    subst hc
    have hl2 : l2 = [] := List.Perm.eq_nil h2.1
    subst hl2
    exact ⟨rfl, fun _ => rfl⟩
  | cons c1 t1 =>
    have hmax1 := isRankingOf_head_max h1
    cases l2 with
    | nil =>
      have hc : cands = [] := (List.Perm.nil_eq h2.1).symm
      rw [hc] at hmax1
      exact absurd hmax1.1 (List.not_mem_nil c1)
    | cons c2 t2 =>
      have hmax2 := isRankingOf_head_max h2
      have hscore : c1.score = c2.score :=
        le_antisymm (hmax2.2 c1 hmax1.1) (hmax1.2 c2 hmax2.1)
      constructor
      · simpa using hscore
      · intro hpw
        have : c1 = c2 := by
          by_contra hne
          exact (List.Pairwise.forall (fun a b hab => (hab ∘ Eq.symm)) hpw
            hmax1.1 hmax2.1 hne) hscore
        simpa using this

def c5_q : RecId := "q1".toList

def c5_r1 : RecId := "p1".toList

def c5_r2 : RecId := "p2".toList

def c5_k1 : ClusterId := "k1".toList

def c5_k2 : ClusterId := "k2".toList

/-- Two candidates for the same query with equal scores. -/
def c5_c1 : Cand := ⟨c5_q, c5_r1, c5_k1, 1⟩

def c5_c2 : Cand := ⟨c5_q, c5_r2, c5_k2, 1⟩

/-- C5 (counterexample to the claim as stated): both orders of two
equal-score candidates are legal outputs of
`ORDER BY similarity_score DESC`, and they select different top-ranked
candidates; nothing in `rank_matches` breaks the tie by record id. -/
theorem c5_rank_ties_counterexample :
    isRankingOf [c5_c1, c5_c2] [c5_c1, c5_c2] ∧
    isRankingOf [c5_c1, c5_c2] [c5_c2, c5_c1] ∧
    ([c5_c1, c5_c2] : List Cand).head? ≠ ([c5_c2, c5_c1] : List Cand).head? := by
  refine ⟨⟨?_, ?_⟩, ⟨?_, ?_⟩, ?_⟩ <;> decide

/-- Distinct-score candidates for the witness. -/
def c5_d1 : Cand := ⟨c5_q, c5_r1, c5_k1, 2⟩

def c5_d2 : Cand := ⟨c5_q, c5_r2, c5_k2, 1⟩

/-- C5 (witness): with pairwise-distinct scores the amended theorem
pins the top-ranked candidate down uniquely. -/
theorem c5_rank_determinism_witness :
    isRankingOf [c5_d1, c5_d2] [c5_d1, c5_d2] ∧
    ([c5_d1, c5_d2] : List Cand).Pairwise (fun a b => a.score ≠ b.score) ∧
    ([c5_d1, c5_d2] : List Cand).head?.map Cand.score
      = ([c5_d1, c5_d2] : List Cand).head?.map Cand.score :=
  ⟨by constructor <;> decide, by decide,
    (c5_rank_determinism_amended [c5_d1, c5_d2] [c5_d1, c5_d2] [c5_d1, c5_d2]
      ⟨by decide, by decide⟩ ⟨by decide, by decide⟩).1⟩

/-! ## C7: Infer touches none of the Build-time state -/

/-- C7: `run_step_2` only executes `CREATE OR REPLACE TABLE` for its
five own result tables; the stop-words table, the blocking keys
(inverted index), the weight table, and the prime table with every
cluster assignment in it are returned exactly as they were. -/
theorem c7_infer_immutability (config : Config) (σ : List Cand → List Cand)
    (db : DB) (newRecs : List SourceRow) :
    (run_step_2 config σ db newRecs).weights = db.weights ∧
    (run_step_2 config σ db newRecs).blocking_keys = db.blocking_keys ∧
    (run_step_2 config σ db newRecs).prime = db.prime ∧
    (run_step_2 config σ db newRecs).stop_words = db.stop_words :=
  ⟨rfl, rfl, rfl, rfl⟩

/-! ## C8: shape and score of emitted candidate pairs -/

lemma sum_map_flatMap {α β : Type} (l : List α) (f : α → List β) (g : β → ℚ) :
    ((l.flatMap f).map g).sum = (l.map fun a => ((f a).map g).sum).sum := by
  induction l with
  | nil => rfl
  | cons a t ih => simp [List.flatMap_cons, ih]

lemma filter_flatMap {α β : Type} (l : List α) (f : α → List β) (p : β → Bool) :
    (l.flatMap f).filter p = l.flatMap fun a => (f a).filter p := by
  induction l with
  | nil => rfl
  | cons a t ih => simp [List.flatMap_cons, List.filter_append, ih]

lemma sum_ite_eq_mem {α : Type} [DecidableEq α] (l : List α) (hnd : l.Nodup)
    (v : α) (c : ℚ) :
    (l.map fun x => if x = v then c else 0).sum = if v ∈ l then c else 0 := by
  induction l with
  | nil => simp
  | cons a t ih =>
    have hnd' : t.Nodup := hnd.of_cons
    by_cases hav : a = v
    · subst hav
      have hvt : a ∉ t := (List.nodup_cons.mp hnd).1
      have : (t.map fun x => if x = a then c else 0).sum = 0 := by
        rw [ih hnd']
        exact if_neg hvt
      simp [this]
    · have : v ∈ a :: t ↔ v ∈ t := by
        constructor
        · intro h
          rcases List.mem_cons.mp h with h | h
          · exact absurd h.symm hav
          · exact h
        · exact List.mem_cons_of_mem a
      rw [List.map_cons, List.sum_cons, if_neg hav, ih hnd', zero_add]
      by_cases hvt : v ∈ t
      · rw [if_pos hvt, if_pos (this.mpr hvt)]
      · rw [if_neg hvt, if_neg (fun h => hvt (this.mp h))]

lemma sum_map_ite_filter {α : Type} (l : List α) (p : α → Prop) [DecidablePred p]
    (f : α → ℚ) :
    (l.map fun x => if p x then f x else 0).sum
      = ((l.filter fun x => decide (p x)).map f).sum := by
  induction l with
  | nil => rfl
  | cons a t ih =>
    by_cases h : p a
    · simp [List.filter_cons, h, ih]
    · simp [List.filter_cons, h, ih]

/-- Tokens of one record in a blocking-keys table. -/
def tokensOf (bk : List (RecId × Token)) (x : RecId) : List Token :=
  (bk.filter fun r => decide (r.1 = x)).map Prod.snd

/-- The tokens shared by two records. -/
def sharedTokens (bk : List (RecId × Token)) (a b : RecId) : List Token :=
  (tokensOf bk a).filter fun t => decide (t ∈ tokensOf bk b)

/-- The weight a weights table gives a token: the sum over its rows for
that token — the unique stored value whenever the table's token keys are
distinct (which holds for `calculate_weights` output), and `0` for an
absent token. -/
def weightOf (wts : List (Token × ℚ)) (t : Token) : ℚ :=
  ((wts.filter fun w => decide (w.1 = t)).map Prod.snd).sum

lemma mem_tokensOf {bk : List (RecId × Token)} {x : RecId} {t : Token} :
    t ∈ tokensOf bk x ↔ (x, t) ∈ bk := by
  constructor
  · intro h
    rcases List.mem_map.mp h with ⟨r, hr, hrt⟩
    obtain ⟨hmem, hfst⟩ := List.mem_filter.mp hr
    have : r = (x, t) := by
      simp only [decide_eq_true_eq] at hfst
      cases r
      simp_all
    rw [← this]; exact hmem
  · intro h
    refine List.mem_map.mpr ⟨(x, t), List.mem_filter.mpr ⟨h, by simp⟩, rfl⟩

/-- Every join row of `pairJoinRows` has strictly ordered record ids. -/
lemma pairJoinRows_lt {bk : List (RecId × Token)} {wts : List (Token × ℚ)}
    {r : RecId × RecId × ℚ} (h : r ∈ pairJoinRows bk wts) : r.1 < r.2.1 := by
  rcases List.mem_flatMap.mp h with ⟨p1, _, h1⟩
  rcases List.mem_flatMap.mp h1 with ⟨p2, _, h2⟩
  by_cases hc : (p1.2 = p2.2 ∧ p1.1 < p2.1)
  · rw [if_pos hc] at h2
    rcases List.mem_map.mp h2 with ⟨w, _, hw⟩
    rw [← hw]
    exact hc.2
  · rw [if_neg hc] at h2
    exact absurd h2 (List.not_mem_nil r)

/-- The summed score of the join rows grouped under key `(a, b)` with
`a < b` is the sum of the weights of the tokens shared by `a` and `b`,
provided the blocking-keys rows are distinct. -/
lemma pairJoinRows_group_sum {bk : List (RecId × Token)} {wts : List (Token × ℚ)}
    {a b : RecId} (hnd : bk.Nodup) (hab : a < b) :
    (((pairJoinRows bk wts).filter fun r =>
        decide (r.1 = a) && decide (r.2.1 = b)).map fun r => r.2.2).sum
      = ((sharedTokens bk a b).map (weightOf wts)).sum := by
  unfold pairJoinRows
  rw [filter_flatMap, sum_map_flatMap]
  have step1 : ∀ p1 ∈ bk,
      ((((bk.flatMap fun p2 =>
          if p1.2 = p2.2 ∧ p1.1 < p2.1 then
            (wts.filter fun w => decide (w.1 = p1.2)).map fun w => (p1.1, p2.1, w.2)
          else []).filter fun r => decide (r.1 = a) && decide (r.2.1 = b)).map
            fun r => r.2.2).sum)
        = if p1.1 = a then
            (bk.map fun p2 =>
              if p2 = (b, p1.2) then weightOf wts p1.2 else 0).sum
          else 0 := by
    intro p1 _
    rw [filter_flatMap, sum_map_flatMap]
    have inner : ∀ p2 ∈ bk,
        ((((if p1.2 = p2.2 ∧ p1.1 < p2.1 then
            (wts.filter fun w => decide (w.1 = p1.2)).map fun w => (p1.1, p2.1, w.2)
          else []).filter fun r => decide (r.1 = a) && decide (r.2.1 = b)).map
            fun r => r.2.2).sum)
          = if p1.1 = a then
              (if p2 = (b, p1.2) then weightOf wts p1.2 else 0)
            else 0 := by
      intro p2 _
      by_cases ha : p1.1 = a
      · rw [if_pos ha]
        by_cases hc : (p1.2 = p2.2 ∧ p1.1 < p2.1)
        · rw [if_pos hc]
          by_cases hb : p2.1 = b
          · have hcond : p2 = (b, p1.2) := by
              cases p2
              simp only [Prod.mk.injEq]
              exact ⟨hb, hc.1.symm⟩
            rw [if_pos hcond]
            simp only [List.filter_map, Function.comp, ha, hb, weightOf]
            have hpred : ((fun r => decide (r.1 = a) && decide (r.2.1 = b)) ∘
                fun w : Token × ℚ => (a, b, w.2)) = fun _ => true := by
              funext w
              simp
            rw [hpred, List.filter_true, List.map_map]
            rfl
          · have hcond : ¬(p2 = (b, p1.2)) := fun hx => hb (by rw [hx])
            rw [if_neg hcond]
            simp [List.filter_map, Function.comp, hb]
        · rw [if_neg hc]
          by_cases hcond : p2 = (b, p1.2)
          · exfalso
            apply hc
            rw [hcond]
            exact ⟨rfl, by rw [ha]; exact hab⟩
          · rw [if_neg hcond]
            rfl
      · rw [if_neg ha]
        by_cases hc : (p1.2 = p2.2 ∧ p1.1 < p2.1)
        · rw [if_pos hc]
          simp [List.filter_map, Function.comp, ha]
        · rw [if_neg hc]
          rfl
    rw [List.map_congr_left inner]
    by_cases ha : p1.1 = a
    · rw [if_pos ha]
      congr 1
      refine List.map_congr_left ?_
      intro p2 _
      rw [if_pos ha]
    · rw [if_neg ha]
      have : ∀ p2 ∈ bk,
          (if p1.1 = a then
            (if p2 = (b, p1.2) then weightOf wts p1.2 else 0) else 0) = (0 : ℚ) := by
        intro p2 _
        rw [if_neg ha]
      rw [List.map_congr_left this]
      simp
  rw [List.map_congr_left step1]
  have step2 : ∀ p1 ∈ bk,
      (if p1.1 = a then
        (bk.map fun p2 => if p2 = (b, p1.2) then weightOf wts p1.2 else 0).sum
      else 0)
        = if p1.1 = a then
            (if (b, p1.2) ∈ bk then weightOf wts p1.2 else 0)
          else 0 := by
    intro p1 _
    by_cases ha : p1.1 = a
    · rw [if_pos ha, if_pos ha, sum_ite_eq_mem bk hnd]
      by_cases hmem : (b, p1.2) ∈ bk
      · rw [if_pos hmem, if_pos hmem]
      · rw [if_neg hmem, if_neg hmem]
    · rw [if_neg ha, if_neg ha]
  rw [List.map_congr_left step2]
  rw [sum_map_ite_filter bk (fun p1 => p1.1 = a)
    (fun p1 => if (b, p1.2) ∈ bk then weightOf wts p1.2 else 0)]
  rw [sum_map_ite_filter (bk.filter fun p1 => decide (p1.1 = a))
    (fun p1 => (b, p1.2) ∈ bk) (fun p1 => weightOf wts p1.2)]
  unfold sharedTokens tokensOf
  rw [List.filter_map, List.map_map]
  simp only [Function.comp_def]
  have heq :
      List.filter (fun x => decide ((b, x.2) ∈ bk))
          (List.filter (fun p1 => decide (p1.1 = a)) bk)
        = List.filter
            (fun x => decide (x.2 ∈ List.map Prod.snd
              (List.filter (fun r => decide (r.1 = b)) bk)))
            (List.filter (fun p1 => decide (p1.1 = a)) bk) := by
    refine List.filter_congr ?_
    intro p1 _
    exact decide_eq_decide.mpr mem_tokensOf.symm
  rw [heq]

/-- C8: over any blocking-keys table with distinct rows (all three
builders emit `SELECT DISTINCT` tables) and any weights table, every
candidate pair `(a, b, score)` emitted by the self-join satisfies
`a < b` strictly, the emitted `(a, b)` keys are pairwise distinct (so
with `a < b` each unordered pair appears at most once), and the score is
the sum over the tokens shared by the two records of that token's weight
(`find_unassigned_pairs` is definitionally the same query). -/
theorem c8_candidate_pair_shape (bk : List (RecId × Token))
    (wts : List (Token × ℚ)) (hnd : bk.Nodup) :
    (∀ p ∈ find_candidate_pairs bk wts,
      p.1 < p.2.1 ∧
        p.2.2 = ((sharedTokens bk p.1 p.2.1).map (weightOf wts)).sum) ∧
    ((find_candidate_pairs bk wts).map fun p => (p.1, p.2.1)).Nodup := by
  constructor
  · intro p hp
    unfold find_candidate_pairs at hp
    rcases List.mem_map.mp hp with ⟨k, hk, hkp⟩
    have hk' := List.mem_dedup.mp hk
    rcases List.mem_map.mp hk' with ⟨r, hr, hrk⟩
    have hlt : k.1 < k.2 := by
      rw [← hrk]
      exact pairJoinRows_lt hr
    constructor
    · rw [← hkp]
      exact hlt
    · rw [← hkp]
      exact pairJoinRows_group_sum hnd hlt
  · have h1 : ((find_candidate_pairs bk wts).map fun p => (p.1, p.2.1))
        = ((pairJoinRows bk wts).map fun r => (r.1, r.2.1)).dedup := by
      unfold find_candidate_pairs
      rw [List.map_map]
      exact List.map_id _
    rw [h1]
    exact List.nodup_dedup _

def c8_tok : Token := "alpha".toList

def c8_bk : List (RecId × Token) := [(cc_a, c8_tok), (cc_b, c8_tok)]

def c8_wts : List (Token × ℚ) := [(c8_tok, 1)]

/-- C8 (witness): the shape theorem applied to a concrete two-record,
one-shared-token table. -/
theorem c8_candidate_pair_shape_witness :
    c8_bk.Nodup ∧
    (∀ p ∈ find_candidate_pairs c8_bk c8_wts,
      p.1 < p.2.1 ∧
        p.2.2 = ((sharedTokens c8_bk p.1 p.2.1).map (weightOf c8_wts)).sum) ∧
    ((find_candidate_pairs c8_bk c8_wts).map fun p => (p.1, p.2.1)).Nodup :=
  ⟨by decide, (c8_candidate_pair_shape c8_bk c8_wts (by decide)).1,
    (c8_candidate_pair_shape c8_bk c8_wts (by decide)).2⟩

/-! ## C6: there is no configuration validation -/

lemma foldl_min_le_init (l : List ℚ) (a : ℚ) : l.foldl min a ≤ a := by
  induction l generalizing a with
  | nil => exact le_refl a
  | cons b t ih => exact le_trans (ih (min a b)) (min_le_left a b)

lemma foldl_min_le_mem (l : List ℚ) (a : ℚ) : ∀ x ∈ l, l.foldl min a ≤ x := by
  induction l generalizing a with
  | nil => intro x hx; exact absurd hx (List.not_mem_nil x)
  | cons b t ih =>
    intro x hx
    rcases List.mem_cons.mp hx with h | h
    · subst h
      exact le_trans (foldl_min_le_init t (min a x)) (min_le_right a x)
    · exact ih (min a b) x h

lemma init_le_foldl_max (l : List ℚ) (a : ℚ) : a ≤ l.foldl max a := by
  induction l generalizing a with
  | nil => exact le_refl a
  | cons b t ih => exact le_trans (le_max_left a b) (ih (max a b))

lemma mem_le_foldl_max (l : List ℚ) (a : ℚ) : ∀ x ∈ l, x ≤ l.foldl max a := by
  induction l generalizing a with
  | nil => intro x hx; exact absurd hx (List.not_mem_nil x)
  | cons b t ih =>
    intro x hx
    rcases List.mem_cons.mp hx with h | h
    · subst h
      exact le_trans (le_max_right a x) (init_le_foldl_max t (max a x))
    · exact ih (max a b) x h

lemma min?_getD_le_of_mem {l : List ℚ} {x : ℚ} (h : x ∈ l) :
    (l.min?).getD 0 ≤ x := by
  cases l with
  | nil => exact absurd h (List.not_mem_nil x)
  | cons a t =>
    show (t.foldl min a) ≤ x
    rcases List.mem_cons.mp h with h | h
    · subst h; exact foldl_min_le_init t x
    · exact foldl_min_le_mem t a x h

lemma le_max?_getD_of_mem {l : List ℚ} {x : ℚ} (h : x ∈ l) :
    x ≤ (l.max?).getD 0 := by
  cases l with
  | nil => exact absurd h (List.not_mem_nil x)
  | cons a t =>
    show x ≤ (t.foldl max a)
    rcases List.mem_cons.mp h with h | h
    · subst h; exact init_le_foldl_max t x
    · exact mem_le_foldl_max t a x h

lemma round4_nonneg {q : ℚ} (h : 0 ≤ q) : 0 ≤ round4 q := by
  unfold round4
  have h1 : (0 : ℤ) ≤ round (q * 10000) := by
    rw [round_eq]
    exact Int.le_floor.mpr (by positivity)
  positivity

/-- Every weight emitted by min-max normalization is nonnegative (it is
`round4` of `(x - min) / (max - min)` with `min ≤ x` and a nonzero,
hence positive, denominator). -/
lemma mem_normalizeLogWeights_nonneg {lw : List (Token × ℚ)} {t : Token} {w : ℚ}
    (h : (t, w) ∈ normalizeLogWeights lw) : 0 ≤ w := by
  unfold normalizeLogWeights at h
  rcases List.mem_map.mp h with ⟨p, hp, hpe⟩
  obtain ⟨hpmem, hpsome⟩ := List.mem_filter.mp hp
  rcases List.mem_map.mp hpmem with ⟨q, hq, hqe⟩
  by_cases hMm : ((lw.map Prod.snd).max?).getD 0 - ((lw.map Prod.snd).min?).getD 0 = 0
  · rw [if_pos hMm] at hqe
    rw [← hqe] at hpsome
    simp at hpsome
  · rw [if_neg hMm] at hqe
    have hw : w = round4 ((q.2 - ((lw.map Prod.snd).min?).getD 0) /
        (((lw.map Prod.snd).max?).getD 0 - ((lw.map Prod.snd).min?).getD 0)) := by
      rw [← hqe] at hpe
      have := congrArg Prod.snd hpe
      simpa using this.symm
    have hmem : q.2 ∈ lw.map Prod.snd := List.mem_map.mpr ⟨q, hq, rfl⟩
    have hmle : ((lw.map Prod.snd).min?).getD 0 ≤ q.2 := min?_getD_le_of_mem hmem
    have hMge : q.2 ≤ ((lw.map Prod.snd).max?).getD 0 := le_max?_getD_of_mem hmem
    rw [hw]
    apply round4_nonneg
    apply div_nonneg
    · linarith
    · have : ((lw.map Prod.snd).min?).getD 0 ≤ ((lw.map Prod.snd).max?).getD 0 :=
        le_trans hmle hMge
      rcases lt_or_eq_of_le this with hlt | heq
      · linarith
      · exact absurd (by linarith) hMm

lemma mem_calculate_weights_nonneg {ln : ℚ → ℚ} {bk : List (RecId × Token)}
    {v : Token × ℚ} (h : v ∈ calculate_weights ln bk) : 0 ≤ v.2 := by
  have : (v.1, v.2) ∈ calculate_weights ln bk := h
  exact mem_normalizeLogWeights_nonneg this

/-- Every join row of `pairJoinRows` carries a value of the weights
table. -/
lemma pairJoinRows_weight_mem {bk : List (RecId × Token)} {wts : List (Token × ℚ)}
    {r : RecId × RecId × ℚ} (h : r ∈ pairJoinRows bk wts) :
    ∃ v ∈ wts, r.2.2 = v.2 := by
  rcases List.mem_flatMap.mp h with ⟨p1, _, h1⟩
  rcases List.mem_flatMap.mp h1 with ⟨p2, _, h2⟩
  by_cases hc : (p1.2 = p2.2 ∧ p1.1 < p2.1)
  · rw [if_pos hc] at h2
    rcases List.mem_map.mp h2 with ⟨v, hv, hve⟩
    refine ⟨v, (List.mem_filter.mp hv).1, ?_⟩
    rw [← hve]
  · rw [if_neg hc] at h2
    exact absurd h2 (List.not_mem_nil r)

/-- Every candidate-pair score over a nonnegative weights table is
nonnegative (it is a sum of weight values). -/
lemma candidate_pair_score_nonneg {bk : List (RecId × Token)}
    {wts : List (Token × ℚ)} (hw : ∀ v ∈ wts, 0 ≤ v.2) :
    ∀ p ∈ find_candidate_pairs bk wts, 0 ≤ p.2.2 := by
  intro p hp
  unfold find_candidate_pairs at hp
  rcases List.mem_map.mp hp with ⟨k, _, hkp⟩
  have : 0 ≤ (((pairJoinRows bk wts).filter fun r =>
      decide (r.1 = k.1) && decide (r.2.1 = k.2)).map fun r => r.2.2).sum := by
    apply List.sum_nonneg
    intro x hx
    rcases List.mem_map.mp hx with ⟨r, hr, hre⟩
    rcases pairJoinRows_weight_mem (List.mem_filter.mp hr).1 with ⟨v, hv, hveq⟩
    rw [← hre, hveq]
    exact hw v hv
  rw [← hkp]
  exact this

/-- C6 (amended): no `ConfigurationError` exists anywhere in the
code; `Config` stores any `similarity_threshold` and `min_token_length`
unvalidated, every pipeline step runs, and the invalid values are
applied as-is.  In particular, under a non-positive threshold (outside
the spec's `(0, 1]`) the threshold filter keeps *every* candidate pair,
because all scores are sums of nonnegative weights. -/
theorem c6_no_validation_amended (ln : ℚ → ℚ) (config : Config)
    (rows : List SourceRow) (hθ : config.similarity_threshold ≤ 0) :
    (run_step_1 ln config rows).filtered_pairs
      = (run_step_1 ln config rows).candidate_pairs := by
  have hproj : (run_step_1 ln config rows).filtered_pairs
      = filter_by_threshold config.similarity_threshold
          ((run_step_1 ln config rows).candidate_pairs) := rfl
  rw [hproj]
  unfold filter_by_threshold
  apply List.filter_eq_self.mpr
  intro p hp
  have hscore : 0 ≤ p.2.2 := by
    refine candidate_pair_score_nonneg ?_ p hp
    intro v hv
    exact mem_calculate_weights_nonneg hv
  exact decide_eq_true (le_trans hθ hscore)

def c6_cfg : Config := ⟨2, [], 1⟩

def c6_cfg_b : Config := ⟨1, [], 0⟩

def c6_text_a : List Char := "alpha beta".toList

def c6_text_b : List Char := "alpha gamma".toList

def c6_rows : List SourceRow := [⟨cc_a, some c6_text_a⟩, ⟨cc_b, some c6_text_b⟩]

/-- C6 (counterexample to the claim as stated): with
`similarity_threshold = 2 ∉ (0, 1]`, and likewise with
`min_token_length = 0 < 1`, no error is raised anywhere: `run_step_1`
executes and its tokenization step produces a non-empty blocking-keys
table, so processing does happen under an invalid configuration. -/
theorem c6_no_config_error_counterexample :
    (¬((0 : ℚ) < c6_cfg.similarity_threshold ∧ c6_cfg.similarity_threshold ≤ 1) ∧
      (run_step_1 (fun q => q) c6_cfg c6_rows).blocking_keys ≠ []) ∧
    (c6_cfg_b.min_token_length < 1 ∧
      (run_step_1 (fun q => q) c6_cfg_b c6_rows).blocking_keys ≠ []) := by
  refine ⟨⟨?_, by decide⟩, ⟨by decide, by decide⟩⟩
  intro h
  have := h.2
  norm_num [c6_cfg] at this

def c6_cfg_w : Config := ⟨-1, [], 1⟩

/-- C6 (witness): the amended theorem applied to a concrete invalid
configuration. -/
theorem c6_no_validation_witness :
    c6_cfg_w.similarity_threshold ≤ 0 ∧
    (run_step_1 (fun q => q) c6_cfg_w []).filtered_pairs
      = (run_step_1 (fun q => q) c6_cfg_w []).candidate_pairs :=
  ⟨by norm_num [c6_cfg_w],
    c6_no_validation_amended (fun q => q) c6_cfg_w [] (by norm_num [c6_cfg_w])⟩

/-! ## C9: empty inputs give empty results, not errors -/

lemma flatMap_singleton_eq_map {α β : Type} (l : List α) (g : α → β) :
    (l.flatMap fun x => [g x]) = l.map g := by
  induction l with
  | nil => rfl
  | cons a t ih => simp [List.flatMap_cons, ih]

lemma filterMap_none_eq_nil {α β : Type} (l : List α) :
    (l.filterMap fun _ => (none : Option β)) = [] := by
  induction l with
  | nil => rfl
  | cons a t ih => simp [ih]

lemma create_prime_table_no_clusters (rows : List SourceRow) :
    create_prime_table rows [] = rows.map fun r => ⟨r.id, r.text, none⟩ := by
  have hrfl : create_prime_table rows []
      = rows.flatMap fun r => [PrimeRow.mk r.id r.text none] := rfl
  rw [hrfl, flatMap_singleton_eq_map]

lemma summary_stats_all_none (rows : List SourceRow) :
    (get_summary_stats (rows.map fun r => ⟨r.id, r.text, none⟩)).total_clusters = 0 ∧
    (get_summary_stats (rows.map fun r => ⟨r.id, r.text, none⟩)).clustered_records = 0 := by
  constructor
  · show (distinctClusterIds (rows.map fun r => ⟨r.id, r.text, none⟩)).length = 0
    unfold distinctClusterIds
    rw [List.filterMap_map]
    have : ((fun r : PrimeRow => r.cluster_id) ∘ fun r : SourceRow =>
        PrimeRow.mk r.id r.text none) = fun _ => none := rfl
    rw [this, filterMap_none_eq_nil]
    rfl
  · show ((rows.map fun r => PrimeRow.mk r.id r.text none).filter
      fun r => r.cluster_id.isSome).length = 0
    rw [List.filter_map]
    have : ((fun r : PrimeRow => r.cluster_id.isSome) ∘ fun r : SourceRow =>
        PrimeRow.mk r.id r.text none) = fun _ => false := rfl
    rw [this, List.filter_false]
    rfl

lemma find_candidate_pairs_nil (wts : List (Token × ℚ)) :
    find_candidate_pairs [] wts = [] := rfl

lemma identify_connected_components_nil :
    identify_connected_components [] = [] := rfl

lemma run_step_1_clusters_proj (ln : ℚ → ℚ) (config : Config)
    (rows : List SourceRow) :
    (run_step_1 ln config rows).clusters = step1_clusters ln config rows := by
  simp only [run_step_1]

lemma run_step_1_filtered_proj (ln : ℚ → ℚ) (config : Config)
    (rows : List SourceRow) :
    (run_step_1 ln config rows).filtered_pairs = step1_filtered ln config rows := by
  simp only [run_step_1]

lemma run_step_1_stats_proj (ln : ℚ → ℚ) (config : Config)
    (rows : List SourceRow) :
    (run_step_1 ln config rows).stats
      = get_summary_stats (step1_prime ln config rows) := by
  simp only [run_step_1]

lemma step1_clusters_of_no_normalized {ln : ℚ → ℚ} {config : Config}
    {rows : List SourceRow} (h : normalizedTextRows rows = []) :
    (run_step_1 ln config rows).clusters = [] := by
  have hbk : step1_bk config rows = [] := by
    simp [step1_bk, create_blocking_keys, h]
  rw [run_step_1_clusters_proj]
  unfold step1_clusters step1_filtered step1_cand
  rw [hbk, find_candidate_pairs_nil]
  rfl

lemma step1_zero_stats {ln : ℚ → ℚ} {config : Config} {rows : List SourceRow}
    (h : (run_step_1 ln config rows).clusters = []) :
    (run_step_1 ln config rows).stats.total_clusters = 0 ∧
    (run_step_1 ln config rows).stats.clustered_records = 0 := by
  have hc : step1_clusters ln config rows = [] := by
    rw [← run_step_1_clusters_proj]
    exact h
  rw [run_step_1_stats_proj]
  have hp : step1_prime ln config rows
      = create_prime_table rows (step1_clusters ln config rows) := by
    unfold step1_prime
    rfl
  rw [hp, hc, create_prime_table_no_clusters]
  exact summary_stats_all_none rows

/-- C9: empty and degenerate inputs complete normally with empty
cluster mappings and zero counts: (i) when no record survives
normalization, Build produces no clusters and zero cluster counts;
(ii) when no candidate pair survives the threshold, Build likewise
produces no clusters and zero cluster counts; (iii) when Reconcile finds
no unmatched record it returns the all-zero statistics and leaves the
prime table untouched; (iv) the connected-components step of Reconcile
accepts an empty pair set and returns the empty mapping.  (None of these
paths can raise: every function of the embedding is total, mirroring the
absence of any raise/exception path in the SQL pipeline.) -/
theorem c9_empty_inputs_degenerate :
    (∀ (ln : ℚ → ℚ) (config : Config) (rows : List SourceRow),
      normalizedTextRows rows = [] →
        (run_step_1 ln config rows).clusters = [] ∧
        (run_step_1 ln config rows).stats.total_clusters = 0 ∧
        (run_step_1 ln config rows).stats.clustered_records = 0) ∧
    (∀ (ln : ℚ → ℚ) (config : Config) (rows : List SourceRow),
      (run_step_1 ln config rows).filtered_pairs = [] →
        (run_step_1 ln config rows).clusters = [] ∧
        (run_step_1 ln config rows).stats.total_clusters = 0 ∧
        (run_step_1 ln config rows).stats.clustered_records = 0) ∧
    (∀ (ln : ℚ → ℚ) (config : Config) (stop : List Token)
        (res : List InfRow) (prime : List PrimeRow),
      identify_unassigned res = [] →
        (run_step_3 ln config stop res prime).stats = ⟨0, 0, 0, 0⟩ ∧
        (run_step_3 ln config stop res prime).prime = prime ∧
        (run_step_3 ln config stop res prime).new_clusters = []) ∧
    identify_unassigned_components [] = [] := by
  refine ⟨?_, ?_, ?_, rfl⟩
  · intro ln config rows h
    have hc := @step1_clusters_of_no_normalized ln config rows h
    exact ⟨hc, (step1_zero_stats hc).1, (step1_zero_stats hc).2⟩
  · intro ln config rows h
    have hc : (run_step_1 ln config rows).clusters = [] := by
      have hf : step1_filtered ln config rows = [] := by
        rw [← run_step_1_filtered_proj]
        exact h
      rw [run_step_1_clusters_proj]
      unfold step1_clusters
      rw [hf]
      exact identify_connected_components_nil
    exact ⟨hc, (step1_zero_stats hc).1, (step1_zero_stats hc).2⟩
  · intro ln config stop res prime h
    refine ⟨?_, ?_, ?_⟩ <;> simp [run_step_3, h]

def c9_blank : List Char := "  ".toList

def c9_rows : List SourceRow := [⟨w_rid, some c9_blank⟩, ⟨cc_a, none⟩]

/-- C9 (witness): the three guarded paths evaluated on concrete
degenerate inputs (a corpus of blank/NULL texts; an empty source table;
inference results with no unmatched row). -/
theorem c9_empty_inputs_witness :
    (normalizedTextRows c9_rows = [] ∧
      (run_step_1 (fun q => q) c6_cfg c9_rows).clusters = [] ∧
      (run_step_1 (fun q => q) c6_cfg c9_rows).stats.total_clusters = 0) ∧
    ((run_step_1 (fun q => q) c6_cfg []).filtered_pairs = [] ∧
      (run_step_1 (fun q => q) c6_cfg []).clusters = []) ∧
    (identify_unassigned [] = [] ∧
      (run_step_3 (fun q => q) c6_cfg [] [] c2_prime).stats = ⟨0, 0, 0, 0⟩ ∧
      (run_step_3 (fun q => q) c6_cfg [] [] c2_prime).prime = c2_prime) := by
  have h1 := (c9_empty_inputs_degenerate.1 (fun q => q) c6_cfg c9_rows (by decide))
  have h2 := (c9_empty_inputs_degenerate.2.1 (fun q => q) c6_cfg [] (by decide))
  have h3 := (c9_empty_inputs_degenerate.2.2.1 (fun q => q) c6_cfg [] [] c2_prime
    (by decide))
  exact ⟨⟨by decide, h1.1, h1.2.1⟩, ⟨by decide, h2.1⟩, ⟨by decide, h3.1, h3.2.1⟩⟩

/-! ## C4: Infer's candidate restriction and match decision -/

lemma candJoinRows_spec {nt bk : List (RecId × Token)} {wts : List (Token × ℚ)}
    {prime : List PrimeRow} {r : Cand} (h : r ∈ candJoinRows nt bk wts prime) :
    (∃ pt ∈ prime, pt.id = r.ref ∧ pt.cluster_id = some r.cluster) ∧
    (∃ t, (r.query, t) ∈ nt ∧ (r.ref, t) ∈ bk) := by
  rcases List.mem_flatMap.mp h with ⟨p1, hp1, h1⟩
  rcases List.mem_flatMap.mp h1 with ⟨b, hb, h2⟩
  by_cases hc : p1.2 = b.2
  · rw [if_pos hc] at h2
    rcases List.mem_flatMap.mp h2 with ⟨w, _, h3⟩
    rcases List.mem_flatMap.mp h3 with ⟨pt, hpt, h4⟩
    obtain ⟨hptmem, hptid⟩ := List.mem_filter.mp hpt
    simp only [decide_eq_true_eq] at hptid
    cases hcl : pt.cluster_id with
    | none =>
      rw [hcl] at h4
      exact absurd h4 (List.not_mem_nil r)
    | some c =>
      rw [hcl] at h4
      have hr : r = ⟨p1.1, b.1, c, w.2⟩ := List.mem_singleton.mp h4
      subst hr
      constructor
      · exact ⟨pt, hptmem, hptid, by rw [hcl]⟩
      · refine ⟨p1.2, hp1, ?_⟩
        rw [hc]
        exact hb
  · rw [if_neg hc] at h2
    exact absurd h2 (List.not_mem_nil r)

lemma mem_find_candidates {nt bk : List (RecId × Token)} {wts : List (Token × ℚ)}
    {prime : List PrimeRow} {c : Cand} (h : c ∈ find_candidates nt bk wts prime) :
    ∃ r ∈ candJoinRows nt bk wts prime,
      r.query = c.query ∧ r.ref = c.ref ∧ r.cluster = c.cluster := by
  unfold find_candidates at h
  rcases List.mem_map.mp h with ⟨k, hk, hke⟩
  rcases List.mem_map.mp (List.mem_dedup.mp hk) with ⟨r, hr, hre⟩
  refine ⟨r, hr, ?_⟩
  rw [← hke, ← hre]
  exact ⟨rfl, rfl, rfl⟩

lemma mem_rowNumberFrom_ge {α : Type} {l : List α} {x : α} {j k : ℕ}
    (h : (x, k) ∈ rowNumberFrom j l) : j ≤ k := by
  induction l generalizing j with
  | nil => cases h
  | cons a t ih =>
    rw [rowNumberFrom] at h
    rcases List.mem_cons.mp h with h | h
    · injection h with _ h2
      omega
    · have := ih h
      omega

lemma rowNumberFrom_one_head {α : Type} {l : List α} {x : α} :
    (x, 1) ∈ rowNumberFrom 1 l ↔ l.head? = some x := by
  cases l with
  | nil => simp [rowNumberFrom]
  | cons a t =>
    rw [rowNumberFrom]
    constructor
    · intro h
      rcases List.mem_cons.mp h with h | h
      · injection h with h1 _
        rw [h1]
        rfl
      · exact absurd (mem_rowNumberFrom_ge h) (by omega)
    · intro h
      have hx : a = x := by
        have : some a = some x := h
        exact Option.some.inj this
      rw [← hx]
      exact List.mem_cons_self _ _

lemma head?_mem {α : Type} {l : List α} {x : α} (h : l.head? = some x) : x ∈ l := by
  cases l with
  | nil => cases h
  | cons a t =>
    have : a = x := Option.some.inj h
    rw [← this]
    exact List.mem_cons_self _ _

lemma rank_one_mem {σ : List Cand → List Cand} {cands : List Cand} {c : Cand}
    (hσ : validSort σ) (h : (c, 1) ∈ rank_matches σ cands) :
    c ∈ cands ∧
      (σ (cands.filter fun x => decide (x.query = c.query))).head? = some c := by
  unfold rank_matches at h
  rcases List.mem_flatMap.mp h with ⟨q, _, hmem⟩
  have hhead := rowNumberFrom_one_head.mp hmem
  have hc : c ∈ σ (cands.filter fun x => decide (x.query = q)) := head?_mem hhead
  have hcf : c ∈ cands.filter fun x => decide (x.query = q) :=
    ((hσ _).1).subset hc
  have hq : c.query = q := by
    have := (List.mem_filter.mp hcf).2
    simpa using this
  refine ⟨(List.mem_filter.mp hcf).1, ?_⟩
  rw [hq]
  exact hhead

lemma rank_one_unique {σ : List Cand → List Cand} {cands : List Cand} {c c' : Cand}
    (hσ : validSort σ) (h1 : (c, 1) ∈ rank_matches σ cands)
    (h2 : (c', 1) ∈ rank_matches σ cands) (hq : c.query = c'.query) : c = c' := by
  have a1 := (rank_one_mem hσ h1).2
  have a2 := (rank_one_mem hσ h2).2
  rw [hq] at a1
  exact Option.some.inj (a1.symm.trans a2)

lemma rank_one_max {σ : List Cand → List Cand} {cands : List Cand} {c : Cand}
    (hσ : validSort σ) (h : (c, 1) ∈ rank_matches σ cands) :
    ∀ c' ∈ cands, c'.query = c.query → c'.score ≤ c.score := by
  intro c' hc' hq
  have hm := (rank_one_mem hσ h).2
  cases hl : σ (cands.filter fun x => decide (x.query = c.query)) with
  | nil =>
    rw [hl] at hm
    cases hm
  | cons a t =>
    rw [hl] at hm
    have hac : a = c := Option.some.inj hm
    subst hac
    have hrank : isRankingOf (cands.filter fun x => decide (x.query = a.query))
        (a :: t) := by
      constructor
      · rw [← hl]
        exact (hσ _).1
      · rw [← hl]
        exact (hσ _).2
    have := (isRankingOf_head_max hrank).2
    exact this c' (List.mem_filter.mpr ⟨hc', by simp [hq]⟩)

lemma mem_create_inferred_matches {θ : ℚ} {ranked : List (Cand × ℕ)}
    {m : InferredMatch} :
    m ∈ create_inferred_matches θ ranked ↔
      ∃ c, (c, 1) ∈ ranked ∧ θ ≤ c.score ∧
        m = ⟨c.query, c.ref, c.cluster, c.score, 1⟩ := by
  unfold create_inferred_matches
  constructor
  · intro h
    rcases List.mem_map.mp h with ⟨r, hr, hre⟩
    obtain ⟨hmem, hcond⟩ := List.mem_filter.mp hr
    simp only [Bool.and_eq_true, decide_eq_true_eq] at hcond
    refine ⟨r.1, ?_, hcond.2, ?_⟩
    · have : ((r.1, (1 : ℕ)) : Cand × ℕ) = r := by
        rw [← hcond.1]
      rw [this]
      exact hmem
    · rw [← hre, hcond.1]
  · rintro ⟨c, hc, hθ, hm⟩
    refine List.mem_map.mpr ⟨(c, 1), List.mem_filter.mpr ⟨hc, by simp [hθ]⟩, ?_⟩
    rw [hm]

lemma run_step_2_cands_proj (config : Config) (σ : List Cand → List Cand)
    (db : DB) (newRecs : List SourceRow) :
    (run_step_2 config σ db newRecs).inference_candidates
      = step2_cands config db newRecs := by
  simp only [run_step_2]

lemma run_step_2_tokens_proj (config : Config) (σ : List Cand → List Cand)
    (db : DB) (newRecs : List SourceRow) :
    (run_step_2 config σ db newRecs).new_record_tokens
      = step2_tokens config db newRecs := by
  simp only [run_step_2]

lemma run_step_2_ranked_proj (config : Config) (σ : List Cand → List Cand)
    (db : DB) (newRecs : List SourceRow) :
    (run_step_2 config σ db newRecs).ranked_matches
      = step2_ranked config σ db newRecs := by
  simp only [run_step_2]

lemma run_step_2_results_proj (config : Config) (σ : List Cand → List Cand)
    (db : DB) (newRecs : List SourceRow) :
    (run_step_2 config σ db newRecs).inference_results
      = step2_results config σ db newRecs := by
  simp only [run_step_2]

/-- C4: under any legal realization `σ` of the score-descending
order: (i) every inference candidate refers to a prime-table record with
a non-null cluster assignment and shares at least one (weighted) token
with the query record; (ii) a rank-1 candidate has maximal score among
its query's candidates ("top-ranked"); (iii) a result row is reported
`matched` exactly when some rank-1 candidate for its record meets the
threshold, and in that case it carries that candidate's cluster id and
record id — otherwise (no candidates, zero tokens, or a top score below
the threshold) it is reported `unmatched`. -/
theorem c4_infer_match_decision (config : Config) (σ : List Cand → List Cand)
    (db : DB) (newRecs : List SourceRow) (hσ : validSort σ) :
    (∀ c ∈ (run_step_2 config σ db newRecs).inference_candidates,
      (∃ pt ∈ db.prime, pt.id = c.ref ∧ pt.cluster_id = some c.cluster) ∧
      (∃ t, (c.query, t) ∈ (run_step_2 config σ db newRecs).new_record_tokens ∧
        (c.ref, t) ∈ db.blocking_keys)) ∧
    (∀ c : Cand, (c, 1) ∈ (run_step_2 config σ db newRecs).ranked_matches →
      ∀ c' ∈ (run_step_2 config σ db newRecs).inference_candidates,
        c'.query = c.query → c'.score ≤ c.score) ∧
    (∀ row ∈ (run_step_2 config σ db newRecs).inference_results,
      (row.match_status = matchedStr ↔
        ∃ c : Cand, (c, 1) ∈ (run_step_2 config σ db newRecs).ranked_matches ∧
          c.query = row.id ∧ config.similarity_threshold ≤ c.score) ∧
      (∀ c : Cand, (c, 1) ∈ (run_step_2 config σ db newRecs).ranked_matches →
        c.query = row.id → config.similarity_threshold ≤ c.score →
          row.assigned_cluster_id = some c.cluster ∧
          row.matched_record_id = some c.ref ∧
          row.similarity_score = some c.score)) := by
  rw [run_step_2_cands_proj, run_step_2_tokens_proj, run_step_2_ranked_proj,
    run_step_2_results_proj]
  refine ⟨?_, ?_, ?_⟩
  · intro c hc
    rcases mem_find_candidates hc with ⟨r, hr, hq, hrf, hcl⟩
    have hspec := candJoinRows_spec hr
    constructor
    · rcases hspec.1 with ⟨pt, hpt, hid, hclu⟩
      exact ⟨pt, hpt, by rw [← hrf]; exact hid, by rw [← hcl]; exact hclu⟩
    · rcases hspec.2 with ⟨t, ht1, ht2⟩
      exact ⟨t, by rw [← hq]; exact ht1, by rw [← hrf]; exact ht2⟩
  · intro c hc c' hc' hq
    exact rank_one_max hσ hc c' hc' hq
  · intro row hrow
    unfold step2_results create_inference_results at hrow
    rcases List.mem_flatMap.mp hrow with ⟨nr, _, hrow'⟩
    cases hfil : (step2_inferred config σ db newRecs).filter
        (fun m => decide (m.query_id = nr.id)) with
    | nil =>
      rw [hfil] at hrow'
      have hrw : row = ⟨nr.id, nr.text, none, none, none, unmatchedStr⟩ :=
        List.mem_singleton.mp hrow'
      subst hrw
      have hnone : ∀ c : Cand, (c, 1) ∈ step2_ranked config σ db newRecs →
          c.query = nr.id → config.similarity_threshold ≤ c.score → False := by
        intro c hc hcq hcθ
        have hm : (⟨c.query, c.ref, c.cluster, c.score, 1⟩ : InferredMatch)
            ∈ step2_inferred config σ db newRecs :=
          mem_create_inferred_matches.mpr ⟨c, hc, hcθ, rfl⟩
        have : (⟨c.query, c.ref, c.cluster, c.score, 1⟩ : InferredMatch)
            ∈ (step2_inferred config σ db newRecs).filter
                (fun m => decide (m.query_id = nr.id)) :=
          List.mem_filter.mpr ⟨hm, by simp [hcq]⟩
        rw [hfil] at this
        exact absurd this (List.not_mem_nil _)
      constructor
      · constructor
        · intro habs
          have hbad : unmatchedStr = matchedStr := habs
          exact absurd hbad (by decide)
        · rintro ⟨c, hc, hcq, hcθ⟩
          exact absurd (hnone c hc hcq hcθ) (fun h => h)
      · intro c hc hcq hcθ
        exact absurd (hnone c hc hcq hcθ) (fun h => h)
    | cons m0 ms =>
      rw [hfil] at hrow'
      rcases List.mem_map.mp hrow' with ⟨m, hm, hrw⟩
      have hmf : m ∈ (step2_inferred config σ db newRecs).filter
          (fun x => decide (x.query_id = nr.id)) := by
        rw [hfil]
        exact hm
      obtain ⟨hmim, hmq⟩ := List.mem_filter.mp hmf
      simp only [decide_eq_true_eq] at hmq
      rcases mem_create_inferred_matches.mp hmim with ⟨c₀, hc₀, hθ₀, hmeq⟩
      have hc₀q : c₀.query = nr.id := by
        rw [hmeq] at hmq
        exact hmq
      subst hrw
      have hstat :
          (⟨nr.id, nr.text, some m.assigned_cluster_id, some m.matched_record_id,
            some m.similarity_score,
            if (some m.assigned_cluster_id).isSome then matchedStr
            else unmatchedStr⟩ : InfRow).match_status = matchedStr := rfl
      constructor
      · constructor
        · intro _
          exact ⟨c₀, hc₀, hc₀q, hθ₀⟩
        · intro _
          exact hstat
      · intro c hc hcq hcθ
        have hceq : c = c₀ := rank_one_unique hσ hc hc₀ (by rw [hcq, hc₀q])
        subst hceq
        rw [hmeq]
        exact ⟨rfl, rfl, rfl⟩

/-- A concrete legal realization of `ORDER BY similarity_score DESC`:
insertion sort by non-increasing score. -/
def scoreDescSort (l : List Cand) : List Cand :=
  l.insertionSort fun a b => b.score ≤ a.score

instance : IsTotal Cand fun a b => b.score ≤ a.score :=
  ⟨fun a b => le_total b.score a.score⟩

instance : IsTrans Cand fun a b => b.score ≤ a.score :=
  ⟨fun _ _ _ h1 h2 => le_trans h2 h1⟩

lemma validSort_scoreDescSort : validSort scoreDescSort := by
  intro l
  exact ⟨List.perm_insertionSort _ l, List.sorted_insertionSort _ l⟩

def c4_db : DB := ⟨[], c8_bk, c8_wts, c2_prime, [], [], [], [], []⟩

def c4_new : List SourceRow := [⟨w_rid, none⟩]

def c4_row : InfRow := ⟨w_rid, none, none, none, none, unmatchedStr⟩

/-- C4 (witness): a new record with NULL text produces no tokens and no
candidates, and the decision theorem instantiated at its result row
yields that no threshold-passing rank-1 candidate for it can exist. -/
theorem c4_infer_match_decision_witness :
    c4_row ∈ (run_step_2 c6_cfg scoreDescSort c4_db c4_new).inference_results ∧
    ¬∃ c : Cand, (c, 1) ∈ (run_step_2 c6_cfg scoreDescSort c4_db c4_new).ranked_matches ∧
      c.query = c4_row.id ∧ c6_cfg.similarity_threshold ≤ c.score := by
  have hmem : c4_row ∈ (run_step_2 c6_cfg scoreDescSort c4_db c4_new).inference_results := by
    decide
  refine ⟨hmem, ?_⟩
  intro hex
  have h := ((c4_infer_match_decision c6_cfg scoreDescSort c4_db c4_new
    validSort_scoreDescSort).2.2 c4_row hmem).1
  have hstat : c4_row.match_status = matchedStr := h.mpr hex
  exact absurd hstat (by decide)

end SpecificAffinity
